import Mathlib

/-!
# Eonza task agent: output buffer, viewer registry and status commands

A shallow embedding of `task.go`.  The package-level variables of the Go program
(`task`, `prevStatus`, `stdoutBuf`, `iStdout`, `clients`, the files and the channels)
become the fields of one `State` record which every operation takes and returns.

Conventions of the embedding

* A Go `string` / `[]byte` is a list of characters (`Str`).
* A Go run-time panic (index out of range) is the result `none`.
* A send on an unbuffered channel is recorded in the list of values sent on that
  channel when the receiver takes it. The receivers of `chSystem` and `chStdin` (the
  interpreter) and of `chStdout` (the ingestion loop) are taken to accept every value;
  the receiver of `wsChan` leaves its loop at a terminal status, and a send on `wsChan`
  after that blocks for ever (`wsSend`).
* A websocket connection `*websocket.Conn` is a handle (a number); the messages that
  were written successfully are recorded, with the handle, in `State.wire`.  Whether a
  write succeeds is decided by the environment, a function `net` from the handle and
  the number of messages already delivered on it to a Boolean.
* The Go map `clients` is an association list with the Go operations `m[k] = v` and
  `delete(m, k)`; a `range` loop visits the entries of the list in order.
-/

namespace Eonza

/-- A Go string: a finite sequence of characters. -/
abbrev Str := List Char

/-! ## Constants -/

/-- Close connection. -/
def WcClose : Nat := 0
/-- Change status. -/
def WcStatus : Nat := 1
/-- New line in console. -/
def WcStdout : Nat := 2
/-- Current output including carriage. -/
def WcStdbuf : Nat := 3

/-- Constants that `task.go` uses and that are declared elsewhere: the task status
codes (in another file of the package), the command codes of the gentee library and
the layout `TimeFormat` (through the function that formats a Unix time with it). -/
structure Consts where
  TaskActive : Int
  TaskSuspended : Int
  TaskFinished : Int
  TaskTerminated : Int
  SysSuspend : Int
  SysResume : Int
  SysTerminate : Int
  TimeFormat : Int → Str

/-- The ordering of the constants: `Active < Suspended < Finished ≤ Terminated` for the
task statuses, as the specification gives it, with no status between `Suspended` and
`Finished` (the program takes `Status <= TaskSuspended`, line 185, and
`Status >= TaskFinished`, line 275, as complementary), and `SysSuspend < SysResume <
SysTerminate` for the command codes, as the guard `cmd >= SysSuspend && cmd <
SysTerminate` around the cases `SysSuspend` and `SysResume` of `sysHandle` takes it. -/
def Consts.WF (k : Consts) : Prop :=
  k.TaskActive < k.TaskSuspended ∧ k.TaskFinished = k.TaskSuspended + 1 ∧
  k.TaskFinished ≤ k.TaskTerminated ∧
  k.SysSuspend < k.SysResume ∧ k.SysResume < k.SysTerminate

instance Consts.decWF (k : Consts) : Decidable k.WF := by
  unfold Consts.WF
  infer_instance

/-- The values of the constants: the task statuses count from zero, the command
codes of gentee are 1 for `SysSuspend`, 2 for `SysResume` and 3 for `SysTerminate`. -/
def eonzaConsts : Consts where
  TaskActive := 0
  TaskSuspended := 1
  TaskFinished := 2
  TaskTerminated := 3
  SysSuspend := 1
  SysResume := 2
  SysTerminate := 3
  TimeFormat := fun _ => []

/-! ## Data model -/

structure WsClient where
  StdoutCount : Nat
  Conn : Nat
deriving DecidableEq

structure WsCmd where
  TaskID : Nat
  Cmd : Nat
  Status : Int := 0
  Message : Str := []
  Time : Str := []
deriving DecidableEq

structure StdinForm where
  Message : Str
deriving DecidableEq

/-- The fields of the `Task` record that `task.go` reads or writes. -/
structure Task where
  ID : Nat
  Status : Int
  StartTime : Int
  FinishTime : Int
  Message : Str
deriving DecidableEq

/-- The body of the status report posted to the controlling process. -/
structure TaskStatus where
  TaskID : Nat
  Status : Int
  Message : Str
  Time : Int
deriving DecidableEq

/-- The package-level variables of `task.go`, with the effects on the outside world
recorded as lists: writes to the two files, values sent on the channels, messages
delivered to websocket connections, connections closed, reports posted. -/
structure State where
  task : Task
  prevStatus : Int
  wsChan : List WsCmd
  stdoutBuf : List Str
  iStdout : Nat
  cmdFile : List (Int × Int × Str)
  outFile : List Str
  cmdClosed : Bool
  outClosed : Bool
  chStdin : List Str
  chStdout : List Str
  chSystem : List Int
  clients : List (Nat × WsClient)
  wire : List (Nat × WsCmd)
  closed : List Nat
  posted : List TaskStatus
  terminating : Nat
  exited : Option Nat
deriving DecidableEq

/-- The answer of a request handler. -/
inductive Response where
  | success
  | error (msg : Str)
deriving DecidableEq

/-! ## Library functions -/

/-- The Go function `strings.Split(s, sep)` for a separator of one character: the
pieces of `s` between the occurrences of `sep`, one more piece than occurrences. -/
def strings.Split : Str → Char → List Str
  | [], _ => [[]]
  | c :: cs, sep =>
    if c = sep then [] :: strings.Split cs sep
    else
      match strings.Split cs sep with
      | [] => [[c]]
      | l :: ls => (c :: l) :: ls

/-- The Go function `strings.Join(elems, sep)` for a separator of one character. -/
def strings.Join : List Str → Char → Str
  | [], _ => []
  | [l], _ => l
  | l :: l2 :: ls, sep => l ++ sep :: strings.Join (l2 :: ls) sep

/-- The left-to-right scan of carriage-return collapsing: `out` is the visible output
accumulated so far and `start` the position in it where the current row begins. -/
def lib.clearScan : Str → Str → Nat → Str
  | [], out, _ => out
  | c :: cs, out, start =>
    if c = '\r' then lib.clearScan cs (out.take start) start
    else if c = '\n' then lib.clearScan cs (out ++ [c]) (out.length + 1)
    else lib.clearScan cs (out ++ [c]) start

/-- Modelled from the spec: `lib.ClearCarriage`, a function of the package `lib` whose
source file is missing. A line's displayed content is the result of scanning its raw content left to right
and, on each carriage return, truncating the accumulated visible output back to the
start of the current row. -/
def lib.ClearCarriage (input : Str) : Str :=
  lib.clearScan input [] 0

/-- The decimal digits of a string as a number, when the string is a non-empty
sequence of decimal digits. -/
def strconv.digits : Str → Option Nat
  | [] => none
  | cs => if cs.all Char.isDigit then
      some (cs.foldl (fun n c => 10 * n + (c.toNat - '0'.toNat)) 0) else none

/-- The integer a string denotes in decimal notation with an optional sign. -/
def strconv.decimal : Str → Option Int
  | '+' :: cs => (strconv.digits cs).map Int.ofNat
  | '-' :: cs => (strconv.digits cs).map (fun n => - Int.ofNat n)
  | cs => (strconv.digits cs).map Int.ofNat

/-- The value of the Go call `strconv.ParseInt(s, 10, 64)` with its error discarded:
zero on a syntax error, the nearest 64-bit integer when the number is out of range. -/
def strconv.ParseInt (s : Str) : Int :=
  match strconv.decimal s with
  | none => 0
  | some v =>
    if v ≥ 2 ^ 63 then 2 ^ 63 - 1
    else if v < -(2 ^ 63) then -(2 ^ 63)
    else v

/-- The Go conversion `uint32(x)` of a 64-bit integer: the value modulo `2 ^ 32`. -/
def uint32 (x : Int) : Nat :=
  (x % 2 ^ 32).toNat

/-! ## The Go map `clients` -/

/-- The Go assignment `m[id] = v`. -/
def mapSet : List (Nat × WsClient) → Nat → WsClient → List (Nat × WsClient)
  | [], id, v => [(id, v)]
  | (k, w) :: rest, id, v =>
    if k = id then (k, v) :: rest else (k, w) :: mapSet rest id v

/-- The Go statement `delete(m, id)`. -/
def mapDelete : List (Nat × WsClient) → Nat → List (Nat × WsClient)
  | [], _ => []
  | (k, w) :: rest, id =>
    if k = id then rest else (k, w) :: mapDelete rest id

/-! ## Websocket connections -/

/-- The messages delivered so far on connection `conn`. -/
def delivered (st : State) (conn : Nat) : List WsCmd :=
  (st.wire.filter (fun e => e.1 = conn)).map Prod.snd

/-- The Go call `conn.WriteJSON(msg)`: the environment `net` decides whether the write
succeeds; a successful write delivers the message. The Boolean is `err == nil`. -/
def WriteJSON (net : Nat → Nat → Bool) (conn : Nat) (msg : WsCmd) (st : State) :
    Bool × State :=
  if net conn (delivered st conn).length then
    (true, { st with wire := st.wire ++ [(conn, msg)] })
  else (false, st)

/-- The Go call `conn.Close()`. -/
def connClose (conn : Nat) (st : State) : State :=
  { st with closed := st.closed ++ [conn] }

/-- The Go call `outFile.Write(b)` with its error logged: the bytes reach the file
unless the file has been closed. -/
def outWrite (b : Str) (st : State) : State :=
  if st.outClosed then st else { st with outFile := st.outFile ++ [b] }

/-! ## `task.go` -/

/-- The loop of `closeTask` (lines 74-79): `n` counts the iterations left. -/
def closeLoop : Nat → State → Option State
  | 0, st => some st
  | n + 1, st =>
    match st.stdoutBuf[st.iStdout]? with
    | none => none
    | some line =>
      closeLoop n { outWrite (lib.ClearCarriage line ++ ['\r', '\n']) st with
        iStdout := st.iStdout + 1 }

/-- The function `closeTask`: the lines from `iStdout` on are written to the output
file and both files are closed.  (The packaging of the files into an archive acts on
the file system only and is left out.) -/
def closeTask (st : State) : Option State :=
  match closeLoop (st.stdoutBuf.length - st.iStdout) st with
  | none => none
  | some st1 => some { st1 with cmdClosed := true, outClosed := true }

/-- The loop of `sendStdout` (lines 98-106), from index `i` with `n` iterations left.
The Boolean is `err == nil`. -/
def sendLoop (net : Nat → Nat → Bool) (client : WsClient) :
    Nat → Nat → State → Option (Bool × State)
  | 0, _, st => some (true, st)
  | n + 1, i, st =>
    match st.stdoutBuf[i]? with
    | none => none
    | some line =>
      match WriteJSON net client.Conn
          { TaskID := st.task.ID, Cmd := WcStdout, Message := line } st with
      | (true, st1) => sendLoop net client n (i + 1) st1
      | (false, st1) => some (false, st1)

/-- The function `sendStdout`: the finalized lines from the cursor of the client up
to `iStdout`, then the collapsed open line. The Boolean is `err == nil`. -/
def sendStdout (net : Nat → Nat → Bool) (client : WsClient) (st : State) :
    Option (Bool × State) :=
  match sendLoop net client (st.iStdout - client.StdoutCount) client.StdoutCount st with
  | none => none
  | some (false, st1) => some (false, st1)
  | some (true, st1) =>
    match st1.stdoutBuf[st1.iStdout]? with
    | none => none
    | some line =>
      some (WriteJSON net client.Conn
        { TaskID := st1.task.ID, Cmd := WcStdbuf, Message := lib.ClearCarriage line } st1)

/-- The start state that `initTask` builds for the task identifier `id` at time `now`
(both files opened, the header line of the trace file left out). -/
def initTask (k : Consts) (id : Nat) (now : Int) : State where
  task := { ID := id, Status := k.TaskActive, StartTime := now, FinishTime := 0,
            Message := [] }
  prevStatus := 0
  wsChan := []
  stdoutBuf := [[]]
  iStdout := 0
  cmdFile := []
  outFile := []
  cmdClosed := false
  outClosed := false
  chStdin := []
  chStdout := []
  chSystem := []
  clients := []
  wire := []
  closed := []
  posted := []
  terminating := 0
  exited := none

/-- The writes of lines 164-168: the lines `buf[i]` for `off ≤ i < len(buf) - 1`,
each followed by CR LF. -/
def writeFinalized (off : Nat) (st : State) : State :=
  ((st.stdoutBuf.dropLast).drop off).foldl
    (fun s line => outWrite (line ++ ['\r', '\n']) s) st

/-- The buffer part of the output-ingestion loop (lines 153-169) for one chunk `out`
received from `chStdout`. -/
def appendStdout (out : Str) (st : State) : Option State :=
  let off := st.stdoutBuf.length - 1
  match strings.Split out '\n' with
  | [] => none
  | l0 :: rest =>
    match st.stdoutBuf[off]? with
    | none => none
    | some o =>
      let buf1 := st.stdoutBuf.set off (o ++ l0)
      let buf2 := buf1 ++ (rest.dropLast).map lib.ClearCarriage
      let closed : Option (List Str) :=
        if (l0 :: rest).length > 1 then
          match buf2[off]?, rest.getLast? with
          | some x, some last => some ((buf2.set off (lib.ClearCarriage x)) ++ [last])
          | _, _ => none
        else some buf2
      match closed with
      | none => none
      | some buf3 =>
        let st1 := writeFinalized off { st with stdoutBuf := buf3 }
        some { st1 with iStdout := st1.stdoutBuf.length - 1 }

/-- The broadcast part of the output-ingestion loop (lines 170-178) over the entries
of the registry as they were when the loop began. -/
def broadcastLoop (net : Nat → Nat → Bool) :
    List (Nat × WsClient) → State → Option State
  | [], st => some st
  | (id, client) :: rest, st =>
    match sendStdout net client st with
    | none => none
    | some (true, st1) =>
      broadcastLoop net rest
        { st1 with clients := mapSet st1.clients id
                     { client with StdoutCount := st1.iStdout } }
    | some (false, st1) =>
      let st2 := connClose client.Conn st1
      broadcastLoop net rest { st2 with clients := mapDelete st2.clients id }

/-- Lines 170-178. -/
def broadcastStdout (net : Nat → Nat → Bool) (st : State) : Option State :=
  broadcastLoop net st.clients st

/-- One turn of the output-ingestion loop (lines 151-179) for the chunk `out`. -/
def stdoutStep (net : Nat → Nat → Bool) (out : Str) (st : State) : Option State :=
  match appendStdout out st with
  | none => none
  | some st1 => broadcastStdout net st1

/-- The handler `wsTaskHandle` for a connection request: `ws` is the outcome of
`upgrader.Upgrade` (the handle of the new connection, or `none` on an error) and
`rnd` the number that `lib.RndNum()` returns. -/
def wsTaskHandle (net : Nat → Nat → Bool) (ws : Option Nat) (rnd : Nat) (st : State) :
    Option State :=
  match ws with
  | none => some st
  | some conn =>
    match WriteJSON net conn
        { TaskID := st.task.ID, Cmd := WcStatus, Status := st.task.Status } st with
    | (false, st1) => some st1
    | (true, st1) =>
      let client : WsClient := { StdoutCount := 0, Conn := conn }
      match sendStdout net client st1 with
      | none => none
      | some (true, st2) =>
        some { st2 with clients := mapSet st2.clients rnd
                          { client with StdoutCount := st2.iStdout } }
      | some (false, st2) => some (connClose client.Conn st2)

/-- Modelled from the spec: `taskTrace`, a function of the package whose source file
is missing: it appends a structured entry (timestamp, status, message) to the trace
log. -/
def taskTrace (timeStamp : Int) (status : Int) (message : Str) (st : State) : State :=
  if st.cmdClosed then st
  else { st with cmdFile := st.cmdFile ++ [(timeStamp, status, message)] }

/-- The send `wsChan <- cmd` of line 279. The channel is unbuffered and its only
receiver is the goroutine of lines 183-201, which takes a value from `wsChan` while
`task.Status <= TaskSuspended` and tests this after every value it has handled; `was`
is the status the task had before the status change that is being notified, the
status of the last test. When `was` is at most `TaskSuspended` the receiver is waiting
and takes the value; otherwise it has left its loop and the send blocks for ever. The
Boolean tells whether the send returns. -/
def wsSend (k : Consts) (was : Int) (cmd : WsCmd) (st : State) : Bool × State :=
  if was ≤ k.TaskSuspended then (true, { st with wsChan := st.wsChan ++ [cmd] })
  else (false, st)

/-- The function `sendCmdStatus`: trace entry, report to the controlling process,
the new status (with the finish time for a terminal one) and the notification sent
on `wsChan`. The Boolean tells whether the function returns; when it is false the
caller is blocked in the send of line 279, the status being already changed. -/
def sendCmdStatus (k : Consts) (status : Int) (timeStamp : Int) (message : Str)
    (st : State) : Bool × State :=
  let st1 := taskTrace timeStamp status message st
  let report : TaskStatus :=
    { TaskID := st1.task.ID, Status := status, Message := message, Time := timeStamp }
  let st2 := { st1 with posted := st1.posted ++ [report] }
  let st3 := { st2 with task := { st2.task with Status := status } }
  if st3.task.Status ≥ k.TaskFinished then
    let st4 := { st3 with task := { st3.task with FinishTime := timeStamp } }
    let cmd : WsCmd := { TaskID := st4.task.ID, Cmd := WcStatus, Status := status,
                         Time := k.TimeFormat timeStamp }
    wsSend k st.task.Status cmd st4
  else
    let cmd : WsCmd := { TaskID := st3.task.ID, Cmd := WcStatus, Status := status,
                         Time := [] }
    wsSend k st.task.Status cmd st3

/-- The function `setStatus`; `pars` is the text `fmt.Sprint(pars...)` when
parameters are given. The Boolean tells whether the function returns. -/
def setStatus (k : Consts) (status : Int) (pars : Option Str) (now : Int) (st : State) :
    Bool × State :=
  match pars with
  | some message =>
    sendCmdStatus k status now message
      { st with task := { st.task with Message := message } }
  | none => sendCmdStatus k status now [] st

/-- The goroutine that `sysHandle` starts for `SysTerminate` (lines 289-294); the
wait on `chFinish` is not represented. When `setStatus` does not return the goroutine
stays blocked in it: `closeTask` is not run and the process does not exit. -/
def terminateTask (k : Consts) (now : Int) (st : State) : Option State :=
  match setStatus k k.TaskTerminated none now st with
  | (false, st1) => some st1
  | (true, st1) =>
    match closeTask st1 with
    | none => none
    | some st2 => some { st2 with terminating := st2.terminating - 1, exited := some 1 }

/-- The answer of a handler whose call of `sendCmdStatus` gave the Boolean and the
state `r`: the success response when the call returned, no answer (`none`) when the
handler is blocked in it. -/
def answer (r : Bool × State) : Option Response × State :=
  match r with
  | (true, st) => (some Response.success, st)
  | (false, st) => (none, st)

/-- The handler `sysHandle`: `cmdParam` and `taskidParam` are the values of the query
parameters `cmd` and `taskid`, `now` is the clock. The first component is the
response, `none` when the handler never answers because it is blocked in
`sendCmdStatus`. -/
def sysHandle (k : Consts) (cmdParam taskidParam : Str) (now : Int) (st : State) :
    Option Response × State :=
  let cmd := strconv.ParseInt cmdParam
  let id := strconv.ParseInt taskidParam
  if uint32 id ≠ st.task.ID then (some (Response.error "wrong task id".toList), st)
  else
    let st1 :=
      if cmd = k.SysTerminate then { st with terminating := st.terminating + 1 } else st
    if cmd ≥ k.SysSuspend ∧ cmd < k.SysTerminate then
      let st3 := { st1 with chSystem := st1.chSystem ++ [cmd] }
      if cmd = k.SysSuspend then
        answer (sendCmdStatus k k.TaskSuspended now []
          { st3 with prevStatus := st3.task.Status })
      else if cmd = k.SysResume then
        answer (sendCmdStatus k st3.prevStatus now [] st3)
      else (some Response.success, st3)
    else (some Response.success, st1)

/-- The handler `stdinHandle`: `taskidParam` is the value of the query parameter
`taskid` and `body` the outcome of `c.Bind(&form)`. -/
def stdinHandle (taskidParam : Str) (body : Except Str StdinForm) (st : State) :
    Response × State :=
  let id := strconv.ParseInt taskidParam
  if uint32 id ≠ st.task.ID then (Response.error "wrong task id".toList, st)
  else
    match body with
    | Except.error err => (Response.error err, st)
    | Except.ok form =>
      let msg := form.Message ++ ['\n']
      (Response.success,
        { st with chStdin := st.chStdin ++ [msg], chStdout := st.chStdout ++ [msg] })

/-! ## The step model -/

/-- The steps of the sequential model: a chunk taken by the output-ingestion loop, a
viewer attaching through `wsTaskHandle` on a new connection with a drawn identifier,
and `closeTask`. -/
inductive Step where
  | append (out : Str)
  | attach (conn : Nat) (rnd : Nat)
  | close
deriving DecidableEq

/-- One step. -/
def step (net : Nat → Nat → Bool) : Step → State → Option State
  | Step.append out, st => stdoutStep net out st
  | Step.attach conn rnd, st => wsTaskHandle net (some conn) rnd st
  | Step.close, st => closeTask st

/-- A sequence of steps, stopping at a panic. -/
def run (net : Nat → Nat → Bool) : List Step → State → Option State
  | [], st => some st
  | s :: rest, st =>
    match step net s st with
    | none => none
    | some st1 => run net rest st1

/-- The environment in which every write to a connection succeeds. -/
def okNet : Nat → Nat → Bool := fun _ _ => true

/-- The payloads of the `WcStdout` messages among `msgs`. -/
def stdoutPayloads (msgs : List WsCmd) : List Str :=
  (msgs.filter (fun m => m.Cmd = WcStdout)).map WsCmd.Message

/-- The connection handles of the attach steps. -/
def attachConns : List Step → List Nat
  | [] => []
  | Step.attach conn _ :: rest => conn :: attachConns rest
  | _ :: rest => attachConns rest

/-- The identifiers drawn by the attach steps. -/
def attachIds : List Step → List Nat
  | [] => []
  | Step.attach _ rnd :: rest => rnd :: attachIds rest
  | _ :: rest => attachIds rest

/-! ## Invariants -/

/-- The buffer, the output file and the registry after the raw input `raw` has been
appended, in any chunks, to the start state. -/
def BufInv (raw : Str) (st : State) : Prop :=
  st.clients = [] ∧ st.outClosed = false ∧
  ∃ A x, strings.Split raw '\n' = A ++ [x] ∧
    st.stdoutBuf = A.map lib.ClearCarriage ++ [x] ∧
    st.outFile = (A.map lib.ClearCarriage).map (fun l => l ++ ['\r', '\n']) ∧
    st.iStdout = A.length

/-- The state with the messages `ms` delivered on connection `conn`. -/
def addWire (st : State) (conn : Nat) (ms : List WsCmd) : State :=
  { st with wire := st.wire ++ ms.map (fun m => (conn, m)) }

/-- The outcome of the loop of `sendStdout` as a function of what it reads: the
identifier of the task, the buffer and the number `d` of messages delivered before
on the connection; the result is the Boolean of the loop and the messages delivered. -/
def loopMsgs (net : Nat → Nat → Bool) (conn tid : Nat) (buf : List Str) :
    Nat → Nat → Nat → Option (Bool × List WsCmd)
  | 0, _, _ => some (true, [])
  | n + 1, i, d =>
    match buf[i]? with
    | none => none
    | some line =>
      if net conn d then
        match loopMsgs net conn tid buf n (i + 1) (d + 1) with
        | none => none
        | some (b, ms) =>
          some (b, { TaskID := tid, Cmd := WcStdout, Message := line } :: ms)
      else some (false, [])

/-- The outcome of `sendStdout` as a function of what it reads. -/
def stdoutMsgs (net : Nat → Nat → Bool) (conn tid : Nat) (buf : List Str)
    (iStd count d : Nat) : Option (Bool × List WsCmd) :=
  match loopMsgs net conn tid buf (iStd - count) count d with
  | none => none
  | some (false, ms) => some (false, ms)
  | some (true, ms) =>
    match buf[iStd]? with
    | none => none
    | some line =>
      if net conn (d + ms.length) then
        some (true, ms ++ [{ TaskID := tid, Cmd := WcStdbuf,
                             Message := lib.ClearCarriage line }])
      else some (false, ms)

/-- Whether `sendStdout` for the client returns without error in the state. -/
def sendOk (net : Nat → Nat → Bool) (st : State) (client : WsClient) : Bool :=
  match sendStdout net client st with
  | some (true, _) => true
  | _ => false

/-- What `sendStdout` for the client does in the state: its Boolean and the messages
it delivers. -/
def sendView (net : Nat → Nat → Bool) (st : State) (c : WsClient) :
    Option (Bool × List WsCmd) :=
  stdoutMsgs net c.Conn st.task.ID st.stdoutBuf st.iStdout c.StdoutCount
    (delivered st c.Conn).length

/-- The messages that `sendStdout` for the client delivers in the state. -/
def viewMsgs (net : Nat → Nat → Bool) (st : State) (c : WsClient) : List WsCmd :=
  match sendView net st c with
  | some (_, ms) => ms
  | none => []

/-- The state without the registry, the delivered messages and the list of closed
connections: the part of the state that a broadcast does not touch. -/
def core (st : State) : State :=
  { st with clients := [], wire := [], closed := [] }

/-- The keys of the registry. -/
def keys (m : List (Nat × WsClient)) : List Nat := m.map Prod.fst

/-- The connection handles of the registry. -/
def conns (m : List (Nat × WsClient)) : List Nat := m.map (fun e => e.2.Conn)

/-- The registry entry of a viewer after a successful send. -/
def advance (iStd : Nat) (e : Nat × WsClient) : Nat × WsClient :=
  (e.1, { e.2 with StdoutCount := iStd })

/-- The messages for the finalized lines `lines`. -/
def lineMsgs (tid : Nat) (lines : List Str) : List WsCmd :=
  lines.map (fun l => { TaskID := tid, Cmd := WcStdout, Message := l })

/-- The state in which the broadcast loop goes on after a successful send to the
client `c` registered under `id`, `ms` being the messages delivered. -/
def keepState (st : State) (id : Nat) (c : WsClient) (ms : List WsCmd) : State :=
  { addWire st c.Conn ms with
    clients := mapSet (addWire st c.Conn ms).clients id
                 { c with StdoutCount := (addWire st c.Conn ms).iStdout } }

/-- The state in which the broadcast loop goes on after a failed send to the client
`c` registered under `id`, `ms` being the messages delivered before the failure. -/
def dropState (st : State) (id : Nat) (c : WsClient) (ms : List WsCmd) : State :=
  { connClose c.Conn (addWire st c.Conn ms) with
    clients := mapDelete (connClose c.Conn (addWire st c.Conn ms)).clients id }

/-- The invariant of the registry in the runs in which every send succeeds; `U` lists
the connection handles in use. The open line is the last record of the buffer, keys
and connections of the registry are distinct, nothing was delivered on a handle not
in use, and every registered viewer has its cursor at `iStdout` and has received, as
`WcStdout` payloads, exactly the finalized lines. -/
def RegInv (U : List Nat) (st : State) : Prop :=
  st.iStdout + 1 = st.stdoutBuf.length ∧
  (keys st.clients).Nodup ∧ (conns st.clients).Nodup ∧
  (∀ conn, conn ∉ U → delivered st conn = []) ∧
  (∀ e ∈ st.clients, e.2.Conn ∈ U) ∧
  ∀ e ∈ st.clients, e.2.StdoutCount = st.iStdout ∧
    stdoutPayloads (delivered st e.2.Conn) = st.stdoutBuf.take st.iStdout

/-- The viewer on connection `conn` is registered under the identifier `id`. -/
def Present (id conn : Nat) (st : State) : Prop :=
  ∃ c, (id, c) ∈ st.clients ∧ c.Conn = conn

/-- An environment in which every write on connection 11 fails and every other write
succeeds. -/
def lossyNet : Nat → Nat → Bool := fun conn _ => decide (conn ≠ 11)

/-- The start state of task 5 with two viewers registered, on the connections 10
and 11. -/
def twoViewers : State :=
  { initTask eonzaConsts 5 0 with
    clients := [(1, { StdoutCount := 0, Conn := 10 }), (2, { StdoutCount := 0, Conn := 11 })] }

/-! ## Splitting and joining -/

theorem Split_ne_nil (s : Str) (sep : Char) : strings.Split s sep ≠ [] := by
  induction s with
  | nil => simp [strings.Split]
  | cons c cs ih =>
    unfold strings.Split
    split
    · simp
    · split <;> simp

theorem Split_cons_sep (cs : Str) (sep : Char) :
    strings.Split (sep :: cs) sep = [] :: strings.Split cs sep := by
  simp [strings.Split]

theorem Split_cons_ne (c : Char) (cs : Str) (sep : Char) (h : c ≠ sep) (l : Str)
    (ls : List Str) (hs : strings.Split cs sep = l :: ls) :
    strings.Split (c :: cs) sep = (c :: l) :: ls := by
  simp [strings.Split, h, hs]

/-- Splitting a concatenation: the last piece of the first part and the first piece
of the second part are glued together. -/
theorem Split_append (a b : Str) (sep : Char) (A : List Str) (x y : Str) (B : List Str)
    (ha : strings.Split a sep = A ++ [x]) (hb : strings.Split b sep = y :: B) :
    strings.Split (a ++ b) sep = A ++ (x ++ y) :: B := by
  induction a generalizing A x with
  | nil =>
    simp [strings.Split] at ha
    cases A with
    | nil => simp at ha; subst ha; simpa using hb
    | cons a0 A0 => simp at ha
  | cons c cs ih =>
    by_cases hc : c = sep
    · subst hc
      rw [Split_cons_sep] at ha
      rw [List.cons_append, Split_cons_sep]
      cases A with
      | nil =>
        simp at ha
        exact absurd ha.2 (Split_ne_nil cs c)
      | cons a0 A0 =>
        simp at ha
        obtain ⟨h0, h1⟩ := ha
        subst h0
        rw [ih A0 x h1]
        simp
    · obtain ⟨l, ls, hls⟩ : ∃ l ls, strings.Split cs sep = l :: ls := by
        cases h : strings.Split cs sep with
        | nil => exact absurd h (Split_ne_nil cs sep)
        | cons l ls => exact ⟨l, ls, rfl⟩
      rw [Split_cons_ne c cs sep hc l ls hls] at ha
      cases A with
      | nil =>
        simp at ha
        obtain ⟨h0, h1⟩ := ha
        subst h0; subst h1
        have := ih [] l (by simpa using hls)
        rw [List.cons_append, Split_cons_ne c (cs ++ b) sep hc (l ++ y) B (by simpa using this)]
        simp
      | cons a0 A0 =>
        simp at ha
        obtain ⟨h0, h1⟩ := ha
        subst h0
        have := ih (l :: A0) x (by rw [hls, h1]; simp)
        rw [List.cons_append, Split_cons_ne c (cs ++ b) sep hc l (A0 ++ (x ++ y) :: B)
          (by simpa using this)]
        simp

/-- Every split is a list of pieces before the last and a last piece. -/
theorem Split_snoc (s : Str) (sep : Char) :
    ∃ A x, strings.Split s sep = A ++ [x] := by
  have h := Split_ne_nil s sep
  exact ⟨(strings.Split s sep).dropLast, (strings.Split s sep).getLast h,
    (List.dropLast_append_getLast h).symm⟩

theorem Join_cons_cons (l l2 : Str) (ls : List Str) (sep : Char) :
    strings.Join (l :: l2 :: ls) sep = l ++ sep :: strings.Join (l2 :: ls) sep := by
  simp [strings.Join]

/-- Joining the pieces of a split gives the string back. -/
theorem Join_Split (s : Str) (sep : Char) :
    strings.Join (strings.Split s sep) sep = s := by
  induction s with
  | nil => simp [strings.Split, strings.Join]
  | cons c cs ih =>
    obtain ⟨l, ls, hls⟩ : ∃ l ls, strings.Split cs sep = l :: ls := by
      cases h : strings.Split cs sep with
      | nil => exact absurd h (Split_ne_nil cs sep)
      | cons l ls => exact ⟨l, ls, rfl⟩
    by_cases hc : c = sep
    · subst hc
      rw [Split_cons_sep, hls, Join_cons_cons, ← hls, ih]
      simp
    · rw [Split_cons_ne c cs sep hc l ls hls]
      rw [hls] at ih
      cases ls with
      | nil =>
        simp [strings.Join] at ih ⊢
        exact ih
      | cons l2 ls2 =>
        rw [Join_cons_cons] at ih ⊢
        rw [← ih]
        simp

/-- No piece of a split contains the separator. -/
theorem Split_no_sep (s : Str) (sep : Char) :
    ∀ l ∈ strings.Split s sep, sep ∉ l := by
  induction s with
  | nil => simp [strings.Split]
  | cons c cs ih =>
    obtain ⟨l, ls, hls⟩ : ∃ l ls, strings.Split cs sep = l :: ls := by
      cases h : strings.Split cs sep with
      | nil => exact absurd h (Split_ne_nil cs sep)
      | cons l ls => exact ⟨l, ls, rfl⟩
    by_cases hc : c = sep
    · subst hc
      rw [Split_cons_sep]
      intro l hl
      rcases List.mem_cons.1 hl with h | h
      · subst h; simp
      · exact ih l h
    · rw [Split_cons_ne c cs sep hc l ls hls]
      rw [hls] at ih
      intro m hm
      rcases List.mem_cons.1 hm with h | h
      · subst h
        intro hmem
        rcases List.mem_cons.1 hmem with h1 | h1
        · exact hc h1.symm
        · exact ih l (List.mem_cons_self _ _) h1
      · exact ih m (List.mem_cons_of_mem _ h)

/-- The pieces of a split are pieces of the string: a character of a piece is a
character of the string. -/
theorem Split_subset (s : Str) (sep : Char) :
    ∀ l ∈ strings.Split s sep, ∀ c ∈ l, c ∈ s := by
  induction s with
  | nil => simp [strings.Split]
  | cons c cs ih =>
    obtain ⟨l, ls, hls⟩ : ∃ l ls, strings.Split cs sep = l :: ls := by
      cases h : strings.Split cs sep with
      | nil => exact absurd h (Split_ne_nil cs sep)
      | cons l ls => exact ⟨l, ls, rfl⟩
    by_cases hc : c = sep
    · subst hc
      rw [Split_cons_sep]
      intro l hl d hd
      rcases List.mem_cons.1 hl with h | h
      · subst h; simp at hd
      · exact List.mem_cons_of_mem _ (ih l h d hd)
    · rw [Split_cons_ne c cs sep hc l ls hls]
      rw [hls] at ih
      intro m hm d hd
      rcases List.mem_cons.1 hm with h | h
      · subst h
        rcases List.mem_cons.1 hd with h1 | h1
        · subst h1; exact List.mem_cons_self _ _
        · exact List.mem_cons_of_mem _ (ih l (List.mem_cons_self _ _) d h1)
      · exact List.mem_cons_of_mem _ (ih m (List.mem_cons_of_mem _ h) d hd)

/-! ## Carriage-return collapsing -/

theorem clearScan_plain (s out : Str) (start : Nat) (hr : '\r' ∉ s) (hn : '\n' ∉ s) :
    lib.clearScan s out start = out ++ s := by
  induction s generalizing out with
  | nil => simp [lib.clearScan]
  | cons c cs ih =>
    have hc1 : c ≠ '\r' := fun h => hr (h ▸ List.mem_cons_self _ _)
    have hc2 : c ≠ '\n' := fun h => hn (h ▸ List.mem_cons_self _ _)
    have hr2 : '\r' ∉ cs := fun h => hr (List.mem_cons_of_mem _ h)
    have hn2 : '\n' ∉ cs := fun h => hn (List.mem_cons_of_mem _ h)
    simp [lib.clearScan, hc1, hc2, ih _ hr2 hn2]

theorem clearScan_append (a s out : Str) (hr : '\r' ∉ a) (hn : '\n' ∉ a) :
    lib.clearScan (a ++ s) out 0 = lib.clearScan s (out ++ a) 0 := by
  induction a generalizing out with
  | nil => simp
  | cons c cs ih =>
    have hc1 : c ≠ '\r' := fun h => hr (h ▸ List.mem_cons_self _ _)
    have hc2 : c ≠ '\n' := fun h => hn (h ▸ List.mem_cons_self _ _)
    have hr2 : '\r' ∉ cs := fun h => hr (List.mem_cons_of_mem _ h)
    have hn2 : '\n' ∉ cs := fun h => hn (List.mem_cons_of_mem _ h)
    simp [lib.clearScan, hc1, hc2, ih _ hr2 hn2]

/-- A line without carriage return and newline is its own displayed content. -/
theorem ClearCarriage_plain (s : Str) (hr : '\r' ∉ s) (hn : '\n' ∉ s) :
    lib.ClearCarriage s = s := by
  simp [lib.ClearCarriage, clearScan_plain s [] 0 hr hn]

/-- The displayed content of `a`, carriage return, `b` is `b`. -/
theorem ClearCarriage_overwrite (a b : Str) (har : '\r' ∉ a) (han : '\n' ∉ a)
    (hbr : '\r' ∉ b) (hbn : '\n' ∉ b) :
    lib.ClearCarriage (a ++ '\r' :: b) = b := by
  unfold lib.ClearCarriage
  rw [clearScan_append a _ [] har han]
  simp [lib.clearScan, clearScan_plain b [] 0 hbr hbn]

/-! ## The buffer part of the ingestion loop -/

theorem outWrite_fold (lines : List Str) (st : State) :
    lines.foldl (fun s line => outWrite (line ++ ['\r', '\n']) s) st =
      if st.outClosed then st
      else { st with outFile := st.outFile ++ lines.map (fun l => l ++ ['\r', '\n']) } := by
  induction lines generalizing st with
  | nil => simp
  | cons l ls ih =>
    rw [List.foldl_cons, ih]
    by_cases hc : st.outClosed = true
    · simp [outWrite, hc]
    · simp [outWrite, hc]

/-- An append whose chunk has no newline extends the open line and nothing else. -/
theorem appendStdout_single (st : State) (F : List Str) (o out s0 : Str)
    (h : st.stdoutBuf = F ++ [o]) (hs : strings.Split out '\n' = [s0]) :
    appendStdout out st =
      some { st with stdoutBuf := F ++ [o ++ s0], iStdout := F.length } := by
  unfold appendStdout
  simp only [hs, h]
  simp [writeFinalized, outWrite_fold]

/-- An append whose chunk has newlines finalizes the open line and the interior
segments, collapsed, writes them to the output file and opens the last segment. -/
theorem appendStdout_multi (st : State) (F : List Str) (o out s0 : Str)
    (mid : List Str) (sk : Str)
    (h : st.stdoutBuf = F ++ [o]) (hs : strings.Split out '\n' = s0 :: (mid ++ [sk])) :
    appendStdout out st =
      some { st with
        stdoutBuf := F ++ lib.ClearCarriage (o ++ s0) :: (mid.map lib.ClearCarriage ++ [sk]),
        iStdout := F.length + 1 + mid.length,
        outFile :=
          if st.outClosed then st.outFile
          else st.outFile ++
            (lib.ClearCarriage (o ++ s0) :: mid.map lib.ClearCarriage).map
              (fun l => l ++ ['\r', '\n']) } := by
  unfold appendStdout
  simp only [hs, h]
  simp [writeFinalized, outWrite_fold]
  have hget : ∀ (M : List Str) (x : Str) (hlt : F.length < (F ++ x :: M).length),
      (F ++ x :: M)[F.length] = x := by
    intro M x hlt
    rw [List.getElem_append_right (Nat.le_refl _)]
    simp
  have hdrop : ∀ (x y : Str) (M : List Str), (x :: (M ++ [y])).dropLast = x :: M := by
    intro x y M
    rw [← List.cons_append, List.dropLast_concat]
  by_cases hc : st.outClosed = true <;> simp [hc, hget, hdrop] <;> omega

theorem Split_plain (s : Str) (sep : Char) (h : sep ∉ s) : strings.Split s sep = [s] := by
  induction s with
  | nil => simp [strings.Split]
  | cons c cs ih =>
    have hc : c ≠ sep := fun e => h (e ▸ List.mem_cons_self _ _)
    have hcs : sep ∉ cs := fun e => h (List.mem_cons_of_mem _ e)
    exact Split_cons_ne c cs sep hc cs [] (ih hcs)

theorem Split_line (s : Str) (sep : Char) (h : sep ∉ s) :
    strings.Split (s ++ [sep]) sep = [s, []] := by
  have h1 : strings.Split s sep = [] ++ [s] := by simpa using Split_plain s sep h
  have h2 : strings.Split [sep] sep = [] :: [[]] := by simp [strings.Split]
  simpa using Split_append s [sep] sep [] s [] [[]] h1 h2

/-- Every split is one piece, or a first piece, interior pieces and a last piece. -/
theorem Split_cases (s : Str) (sep : Char) :
    (∃ s0, strings.Split s sep = [s0]) ∨
    (∃ s0 mid sk, strings.Split s sep = s0 :: (mid ++ [sk])) := by
  obtain ⟨A, x, h⟩ := Split_snoc s sep
  cases A with
  | nil => exact Or.inl ⟨x, by simpa using h⟩
  | cons a A0 => exact Or.inr ⟨a, A0, x, by simpa using h⟩

theorem BufInv_init (k : Consts) (id : Nat) (now : Int) : BufInv [] (initTask k id now) := by
  refine ⟨rfl, rfl, [], [], ?_, rfl, rfl, rfl⟩
  simp [strings.Split]

theorem BufInv_step (net : Nat → Nat → Bool) (raw out : Str) (st : State)
    (h : BufInv raw st) :
    ∃ st', stdoutStep net out st = some st' ∧ BufInv (raw ++ out) st' := by
  obtain ⟨hcl, hoc, A, x, hsp, hbuf, hfile, hi⟩ := h
  rcases Split_cases out '\n' with ⟨s0, hs⟩ | ⟨s0, mid, sk, hs⟩
  · refine ⟨{ st with stdoutBuf := A.map lib.ClearCarriage ++ [x ++ s0],
                      iStdout := (A.map lib.ClearCarriage).length }, ?_, ?_⟩
    · simp [stdoutStep, appendStdout_single st _ x out s0 hbuf hs, broadcastStdout, hcl,
        broadcastLoop]
    · refine ⟨hcl, hoc, A, x ++ s0, ?_, rfl, hfile, by simp⟩
      exact Split_append raw out '\n' A x s0 [] hsp hs
  · have hm := appendStdout_multi st _ x out s0 mid sk hbuf hs
    rw [hoc] at hm
    refine ⟨_, by simp only [stdoutStep, hm, broadcastStdout, hcl, broadcastLoop]; rfl, ?_⟩
    · refine ⟨rfl, rfl, A ++ (x ++ s0) :: mid, sk, ?_, ?_, ?_, ?_⟩
      · have := Split_append raw out '\n' A x s0 (mid ++ [sk]) hsp hs
        simpa using this
      · simp
      · simp [hoc, hfile]
      · simp; omega

theorem BufInv_run (net : Nat → Nat → Bool) (chunks : List Str) (raw : Str) (st : State)
    (h : BufInv raw st) :
    ∃ st', run net (chunks.map Step.append) st = some st' ∧
      BufInv (raw ++ chunks.flatten) st' := by
  induction chunks generalizing raw st with
  | nil => exact ⟨st, rfl, by simpa using h⟩
  | cons c cs ih =>
    obtain ⟨st1, h1, hinv1⟩ := BufInv_step net raw c st h
    obtain ⟨st2, h2, hinv2⟩ := ih (raw ++ c) st1 hinv1
    refine ⟨st2, ?_, by simpa using hinv2⟩
    simp [run, step, h1, h2]

/-! ## Claims on the output buffer -/

/-- C3: for a buffer with finalized lines `F` and open line `o`, the append step for a
chunk succeeds; when the chunk splits into the single segment `s0` the buffer becomes
`F ++ [o ++ s0]`, the open line not collapsed; when it splits into `s0`, interior
segments `mid` and a last segment `sk`, the buffer becomes `F` followed by the
collapsed `o ++ s0`, the collapsed interior segments and the raw `sk`; one of the two
cases always applies, and `F` is kept as it was. -/
theorem appendStdout_buffer (st : State) (F : List Str) (o out : Str)
    (h : st.stdoutBuf = F ++ [o]) :
    ∃ st', appendStdout out st = some st' ∧
      (∀ s0, strings.Split out '\n' = [s0] → st'.stdoutBuf = F ++ [o ++ s0]) ∧
      (∀ s0 mid sk, strings.Split out '\n' = s0 :: (mid ++ [sk]) →
        st'.stdoutBuf =
          F ++ lib.ClearCarriage (o ++ s0) :: (mid.map lib.ClearCarriage ++ [sk])) ∧
      ((∃ s0, strings.Split out '\n' = [s0]) ∨
        (∃ s0 mid sk, strings.Split out '\n' = s0 :: (mid ++ [sk]))) ∧
      st'.stdoutBuf.take F.length = F := by
  rcases Split_cases out '\n' with ⟨s0, hs⟩ | ⟨s0, mid, sk, hs⟩
  · refine ⟨_, appendStdout_single st F o out s0 h hs, ?_, ?_, Or.inl ⟨s0, hs⟩, ?_⟩
    · intro t ht
      rw [hs] at ht
      simp at ht
      simp [ht]
    · intro t mid sk ht
      rw [hs] at ht
      simp at ht
    · simp
  · refine ⟨_, appendStdout_multi st F o out s0 mid sk h hs, ?_, ?_,
      Or.inr ⟨s0, mid, sk, hs⟩, ?_⟩
    · intro t ht
      rw [hs] at ht
      simp at ht
    · intro t mid2 sk2 ht
      rw [hs] at ht
      simp only [List.cons.injEq] at ht
      obtain ⟨h0, h1⟩ := ht
      have h2 := List.append_inj_right' h1 rfl
      have h3 := List.append_inj_left' h1 rfl
      simp at h2
      subst h0; subst h2; subst h3
      rfl
    · simp

/-- Witness for C3: the chunk "a\rb\nc" appended to the start buffer. -/
theorem appendStdout_buffer_witness :
    (initTask eonzaConsts 5 0).stdoutBuf = [] ++ [[]] ∧
    ∃ st', appendStdout "a\rb\nc".toList (initTask eonzaConsts 5 0) = some st' ∧
      (∀ s0, strings.Split "a\rb\nc".toList '\n' = [s0] → st'.stdoutBuf = [] ++ [[] ++ s0]) ∧
      (∀ s0 mid sk, strings.Split "a\rb\nc".toList '\n' = s0 :: (mid ++ [sk]) →
        st'.stdoutBuf =
          [] ++ lib.ClearCarriage ([] ++ s0) :: (mid.map lib.ClearCarriage ++ [sk])) ∧
      ((∃ s0, strings.Split "a\rb\nc".toList '\n' = [s0]) ∨
        (∃ s0 mid sk, strings.Split "a\rb\nc".toList '\n' = s0 :: (mid ++ [sk]))) ∧
      st'.stdoutBuf.take ([] : List Str).length = [] :=
  ⟨rfl, appendStdout_buffer (initTask eonzaConsts 5 0) [] [] "a\rb\nc".toList rfl⟩

/-- C6: for every sequence of chunks taken by the ingestion loop from the start
state, under any behaviour of the connections, the run succeeds and the buffer is
determined by the concatenation of the chunks: with the split of the concatenation
on newline, the records before the last are the collapsed pieces and the open
record is the last piece raw; and when the input has no carriage return, joining
the records with newline gives the input back. -/
theorem chunking_independent (net : Nat → Nat → Bool) (k : Consts) (id : Nat) (now : Int)
    (chunks : List Str) :
    ∃ st, run net (chunks.map Step.append) (initTask k id now) = some st ∧
      st.stdoutBuf =
        (strings.Split chunks.flatten '\n').dropLast.map lib.ClearCarriage ++
          [(strings.Split chunks.flatten '\n').getLast (Split_ne_nil _ _)] ∧
      st.stdoutBuf.length = (strings.Split chunks.flatten '\n').length ∧
      ('\r' ∉ chunks.flatten → strings.Join st.stdoutBuf '\n' = chunks.flatten) := by
  obtain ⟨st, hrun, -, -, A, x, hsp, hbuf, -, -⟩ :=
    BufInv_run net chunks [] (initTask k id now) (BufInv_init k id now)
  simp only [List.nil_append] at hsp
  refine ⟨st, hrun, ?_, ?_, ?_⟩
  · simp [hsp, hbuf]
  · simp [hsp, hbuf]
  · intro hr
    have hA : A.map lib.ClearCarriage = A := by
      conv_rhs => rw [← List.map_id A]
      apply List.map_congr_left
      intro l hl
      show lib.ClearCarriage l = l
      have hmem : l ∈ strings.Split chunks.flatten '\n' := by
        rw [hsp]; exact List.mem_append_left _ hl
      apply ClearCarriage_plain
      · intro hc
        exact hr (Split_subset _ _ l hmem _ hc)
      · exact Split_no_sep _ _ l hmem
    rw [hbuf, hA, ← hsp, Join_Split]

/-- Witness for C6: the input "ab\ncd\n" in the chunks "ab\nc" and "d\n". -/
theorem chunking_independent_witness :
    ∃ st, run okNet (["ab\nc".toList, "d\n".toList].map Step.append)
        (initTask eonzaConsts 5 0) = some st ∧
      st.stdoutBuf = ["ab".toList, "cd".toList, []] ∧
      strings.Join st.stdoutBuf '\n' = "ab\ncd\n".toList := by
  obtain ⟨st, h1, h2, -, h4⟩ :=
    chunking_independent okNet eonzaConsts 5 0 ["ab\nc".toList, "d\n".toList]
  refine ⟨st, h1, ?_, h4 (by decide)⟩
  rw [h2]
  decide

/-- C7: for strings `a`, `b`, `c` without carriage return and newline, appending
`a`, carriage return, `b`, newline and then `c` to the start buffer gives exactly
one finalized line, equal to `b`, and the open line `c`. -/
theorem carriage_collapse (k : Consts) (id : Nat) (now : Int) (a b c : Str)
    (har : '\r' ∉ a) (han : '\n' ∉ a) (hbr : '\r' ∉ b) (hbn : '\n' ∉ b)
    (hcn : '\n' ∉ c) :
    ∃ st1 st2, appendStdout (a ++ '\r' :: b ++ ['\n']) (initTask k id now) = some st1 ∧
      appendStdout c st1 = some st2 ∧
      st2.stdoutBuf = [b, c] ∧ st2.iStdout = 1 := by
  have hline : '\n' ∉ a ++ '\r' :: b := by
    intro hm
    rcases List.mem_append.1 hm with h | h
    · exact han h
    · rcases List.mem_cons.1 h with h | h
      · exact absurd h (by decide)
      · exact hbn h
  have hs1 : strings.Split (a ++ '\r' :: b ++ ['\n']) '\n' = (a ++ '\r' :: b) :: ([] ++ [[]]) := by
    have := Split_line (a ++ '\r' :: b) '\n' hline
    simpa using this
  obtain ⟨st1, h1, hb1⟩ : ∃ st1,
      appendStdout (a ++ '\r' :: b ++ ['\n']) (initTask k id now) = some st1 ∧
      st1.stdoutBuf = [lib.ClearCarriage (a ++ '\r' :: b)] ++ [[]] :=
    ⟨_, appendStdout_multi (initTask k id now) [] [] _ _ [] [] rfl hs1, by simp⟩
  have hs2 : strings.Split c '\n' = [c] := Split_plain c '\n' hcn
  have h2 := appendStdout_single st1 [lib.ClearCarriage (a ++ '\r' :: b)] [] c c hb1 hs2
  exact ⟨st1, _, h1, h2, by simp [ClearCarriage_overwrite a b har han hbr hbn], by simp⟩

/-- Witness for C7: "foo\rbar\n" and then "baz". -/
theorem carriage_collapse_witness :
    ∃ st1 st2, appendStdout "foo\rbar\n".toList (initTask eonzaConsts 5 0) = some st1 ∧
      appendStdout "baz".toList st1 = some st2 ∧
      st2.stdoutBuf = ["bar".toList, "baz".toList] ∧ st2.iStdout = 1 :=
  carriage_collapse eonzaConsts 5 0 "foo".toList "bar".toList "baz".toList
    (by decide) (by decide) (by decide) (by decide) (by decide)

/-- C8: after any sequence of chunks taken by the ingestion loop from the start
state, the writes to the output file are the finalized lines of the buffer (all
records but the last), in buffer order, each once and each followed by CR LF; the
open line is not among them. -/
theorem outFile_log (net : Nat → Nat → Bool) (k : Consts) (id : Nat) (now : Int)
    (chunks : List Str) :
    ∃ st, run net (chunks.map Step.append) (initTask k id now) = some st ∧
      st.outFile = st.stdoutBuf.dropLast.map (fun l => l ++ ['\r', '\n']) ∧
      st.outFile.length + 1 = st.stdoutBuf.length := by
  obtain ⟨st, hrun, -, -, A, x, -, hbuf, hfile, -⟩ :=
    BufInv_run net chunks [] (initTask k id now) (BufInv_init k id now)
  refine ⟨st, hrun, ?_, ?_⟩
  · rw [hbuf, hfile, List.dropLast_concat]
  · simp [hbuf, hfile]

/-! ## The request handlers -/

theorem sendCmdStatus_fields (k : Consts) (status t : Int) (m : Str) (st : State) :
    (sendCmdStatus k status t m st).2.task.Status = status ∧
    (sendCmdStatus k status t m st).2.task.ID = st.task.ID ∧
    (sendCmdStatus k status t m st).2.prevStatus = st.prevStatus ∧
    (sendCmdStatus k status t m st).2.chSystem = st.chSystem ∧
    (sendCmdStatus k status t m st).2.terminating = st.terminating ∧
    (sendCmdStatus k status t m st).2.stdoutBuf = st.stdoutBuf ∧
    (sendCmdStatus k status t m st).2.iStdout = st.iStdout ∧
    (sendCmdStatus k status t m st).2.wsChan =
      (if st.task.Status ≤ k.TaskSuspended then
        st.wsChan ++ [{ TaskID := st.task.ID, Cmd := WcStatus, Status := status,
                        Time := (if status ≥ k.TaskFinished then k.TimeFormat t else []) }]
      else st.wsChan) ∧
    (sendCmdStatus k status t m st).1 = decide (st.task.Status ≤ k.TaskSuspended) := by
  unfold sendCmdStatus taskTrace wsSend
  by_cases hc : st.cmdClosed = true <;> by_cases hf : status ≥ k.TaskFinished <;>
    by_cases hw : st.task.Status ≤ k.TaskSuspended <;> simp [hc, hf, hw]

/-- In a status that is at most `TaskSuspended` the function `sendCmdStatus` returns. -/
theorem sendCmdStatus_returns (k : Consts) (status t : Int) (m : Str) (st : State)
    (h : st.task.Status ≤ k.TaskSuspended) :
    sendCmdStatus k status t m st = (true, (sendCmdStatus k status t m st).2) := by
  have h1 := (sendCmdStatus_fields k status t m st).2.2.2.2.2.2.2.2
  apply Prod.ext
  · rw [h1]; simp [h]
  · rfl

/-- In a status above `TaskSuspended` the function `sendCmdStatus` does not return. -/
theorem sendCmdStatus_blocks (k : Consts) (status t : Int) (m : Str) (st : State)
    (h : ¬ st.task.Status ≤ k.TaskSuspended) :
    sendCmdStatus k status t m st = (false, (sendCmdStatus k status t m st).2) := by
  have h1 := (sendCmdStatus_fields k status t m st).2.2.2.2.2.2.2.2
  apply Prod.ext
  · rw [h1]; simp [h]
  · rfl

theorem answer_snd (r : Bool × State) : (answer r).2 = r.2 := by
  obtain ⟨b, st⟩ := r
  cases b <;> rfl

/-- The loop of `closeTask` does not fail when its reads stay inside the buffer, and
it ends with `iStdout` advanced by the number of iterations. -/
theorem closeLoop_spec (n : Nat) (st : State) (h : st.iStdout + n ≤ st.stdoutBuf.length) :
    ∃ st', closeLoop n st = some st' ∧ st'.task = st.task ∧
      st'.stdoutBuf = st.stdoutBuf ∧ st'.iStdout = st.iStdout + n ∧
      st'.clients = st.clients ∧ st'.wire = st.wire ∧ st'.terminating = st.terminating := by
  induction n generalizing st with
  | zero => exact ⟨st, rfl, rfl, rfl, rfl, rfl, rfl, rfl⟩
  | succ n ih =>
    have hlt : st.iStdout < st.stdoutBuf.length := by omega
    have hget : st.stdoutBuf[st.iStdout]? = some st.stdoutBuf[st.iStdout] :=
      List.getElem?_eq_getElem hlt
    obtain ⟨st', h1, h2, h3, h4, h5, h6, h7⟩ :=
      ih { outWrite (lib.ClearCarriage st.stdoutBuf[st.iStdout] ++ ['\r', '\n']) st with
        iStdout := st.iStdout + 1 }
        (by by_cases hc : st.outClosed = true <;> simp [outWrite, hc] <;> omega)
    refine ⟨st', ?_, ?_, ?_, ?_, ?_, ?_, ?_⟩
    · simp only [closeLoop, hget]
      exact h1
    · rw [h2]; by_cases hc : st.outClosed = true <;> simp [outWrite, hc]
    · rw [h3]; by_cases hc : st.outClosed = true <;> simp [outWrite, hc]
    · rw [h4]; simp; omega
    · rw [h5]; by_cases hc : st.outClosed = true <;> simp [outWrite, hc]
    · rw [h6]; by_cases hc : st.outClosed = true <;> simp [outWrite, hc]
    · rw [h7]; by_cases hc : st.outClosed = true <;> simp [outWrite, hc]

/-- The function `closeTask` does not fail; it leaves `iStdout` at the length of the
buffer when it was not beyond it. -/
theorem closeTask_spec (st : State) :
    ∃ st', closeTask st = some st' ∧ st'.task = st.task ∧
      st'.stdoutBuf = st.stdoutBuf ∧
      st'.iStdout = st.iStdout + (st.stdoutBuf.length - st.iStdout) ∧
      st'.clients = st.clients ∧ st'.wire = st.wire ∧ st'.terminating = st.terminating := by
  by_cases hle : st.iStdout ≤ st.stdoutBuf.length
  · obtain ⟨st1, h1, h2, h3, h4, h5, h6, h7⟩ :=
      closeLoop_spec (st.stdoutBuf.length - st.iStdout) st (by omega)
    exact ⟨{ st1 with cmdClosed := true, outClosed := true },
      by simp only [closeTask, h1], h2, h3, h4, h5, h6, h7⟩
  · have hz : st.stdoutBuf.length - st.iStdout = 0 := by omega
    refine ⟨{ st with cmdClosed := true, outClosed := true },
      by simp only [closeTask, hz, closeLoop], rfl, rfl, ?_, rfl, rfl, rfl⟩
    simp [hz]

/-- The termination goroutine does not fail and sets the status `TaskTerminated`; it
goes on to `closeTask` and the exit when the status it finds is at most
`TaskSuspended`. -/
theorem terminateTask_spec (k : Consts) (now : Int) (st : State) :
    ∃ st', terminateTask k now st = some st' ∧ st'.task.Status = k.TaskTerminated ∧
      (st.task.Status ≤ k.TaskSuspended → st'.exited = some 1) := by
  have hs : (setStatus k k.TaskTerminated none now st) =
      sendCmdStatus k k.TaskTerminated now [] st := rfl
  have hstat := (sendCmdStatus_fields k k.TaskTerminated now [] st).1
  by_cases hw : st.task.Status ≤ k.TaskSuspended
  · obtain ⟨st1, h1, h2, -⟩ := closeTask_spec (sendCmdStatus k k.TaskTerminated now [] st).2
    refine ⟨{ st1 with terminating := st1.terminating - 1, exited := some 1 }, ?_, ?_,
      fun _ => rfl⟩
    · simp only [terminateTask, hs]
      rw [sendCmdStatus_returns k _ now [] st hw]
      simp only [h1]
    · show st1.task.Status = _
      rw [h2]; exact hstat
  · refine ⟨(sendCmdStatus k k.TaskTerminated now [] st).2, ?_, hstat,
      fun h => absurd h hw⟩
    simp only [terminateTask, hs]
    rw [sendCmdStatus_blocks k _ now [] st hw]

/-- Suspend with the task identifier accepted. -/
theorem sysHandle_suspend_eq (k : Consts) (hk : k.WF) (cs tid : Str) (now : Int)
    (st : State) (hid : uint32 (strconv.ParseInt tid) = st.task.ID)
    (hs : strconv.ParseInt cs = k.SysSuspend) :
    sysHandle k cs tid now st =
      answer (sendCmdStatus k k.TaskSuspended now []
        { st with chSystem := st.chSystem ++ [k.SysSuspend],
                  prevStatus := st.task.Status }) := by
  obtain ⟨-, -, -, h1, h2⟩ := hk
  have hne : k.SysSuspend ≠ k.SysTerminate := by omega
  have hlt : k.SysSuspend < k.SysTerminate := by omega
  simp [sysHandle, hid, hs, hne, hlt]

/-- Resume with the task identifier accepted. -/
theorem sysHandle_resume_eq (k : Consts) (hk : k.WF) (cr tid : Str) (now : Int)
    (st : State) (hid : uint32 (strconv.ParseInt tid) = st.task.ID)
    (hr : strconv.ParseInt cr = k.SysResume) :
    sysHandle k cr tid now st =
      answer (sendCmdStatus k st.prevStatus now []
        { st with chSystem := st.chSystem ++ [k.SysResume] }) := by
  obtain ⟨-, -, -, h1, h2⟩ := hk
  have hne1 : k.SysResume ≠ k.SysTerminate := by omega
  have hne2 : k.SysResume ≠ k.SysSuspend := by omega
  have hlt1 : k.SysResume < k.SysTerminate := by omega
  have hle : k.SysSuspend ≤ k.SysResume := by omega
  simp [sysHandle, hid, hr, hne1, hne2, hlt1, hle]

/-- C1, as the code has it: `sysHandle` does not look at the status, so a terminal
status does not make it reject a command. With the task identifier accepted, in every
state, terminal or not: Suspend forwards its code on `chSystem`, records the former
status in `prevStatus` and sets the status to `TaskSuspended`; Resume forwards its code
and sets the status to `prevStatus`; Terminate is answered with success, leaves the
status as it is in the handler and starts the termination goroutine, which sets the
status to `TaskTerminated`; any other command code is answered with success and
changes neither the task nor `prevStatus`. -/
theorem sysHandle_applies (k : Consts) (hk : k.WF) (cmdParam taskidParam : Str)
    (now now2 : Int) (st : State)
    (hid : uint32 (strconv.ParseInt taskidParam) = st.task.ID) :
    (strconv.ParseInt cmdParam = k.SysSuspend →
      (sysHandle k cmdParam taskidParam now st).2.task.Status = k.TaskSuspended ∧
      (sysHandle k cmdParam taskidParam now st).2.prevStatus = st.task.Status ∧
      (sysHandle k cmdParam taskidParam now st).2.chSystem =
        st.chSystem ++ [k.SysSuspend]) ∧
    (strconv.ParseInt cmdParam = k.SysResume →
      (sysHandle k cmdParam taskidParam now st).2.task.Status = st.prevStatus ∧
      (sysHandle k cmdParam taskidParam now st).2.chSystem =
        st.chSystem ++ [k.SysResume]) ∧
    (strconv.ParseInt cmdParam = k.SysTerminate →
      (sysHandle k cmdParam taskidParam now st).1 = some Response.success ∧
      (sysHandle k cmdParam taskidParam now st).2.task.Status = st.task.Status ∧
      (sysHandle k cmdParam taskidParam now st).2.terminating = st.terminating + 1 ∧
      ∃ st', terminateTask k now2 (sysHandle k cmdParam taskidParam now st).2 = some st' ∧
        st'.task.Status = k.TaskTerminated) ∧
    (strconv.ParseInt cmdParam ≠ k.SysSuspend → strconv.ParseInt cmdParam ≠ k.SysResume →
      strconv.ParseInt cmdParam ≠ k.SysTerminate →
      (sysHandle k cmdParam taskidParam now st).1 = some Response.success ∧
      (sysHandle k cmdParam taskidParam now st).2.task = st.task ∧
      (sysHandle k cmdParam taskidParam now st).2.prevStatus = st.prevStatus) := by
  refine ⟨?_, ?_, ?_, ?_⟩
  · intro hc
    rw [sysHandle_suspend_eq k hk cmdParam taskidParam now st hid hc, answer_snd]
    obtain ⟨a1, -, a3, a4, -⟩ := sendCmdStatus_fields k k.TaskSuspended now []
      { st with chSystem := st.chSystem ++ [k.SysSuspend], prevStatus := st.task.Status }
    exact ⟨a1, a3, a4⟩
  · intro hc
    rw [sysHandle_resume_eq k hk cmdParam taskidParam now st hid hc, answer_snd]
    obtain ⟨a1, -, -, a4, -⟩ := sendCmdStatus_fields k st.prevStatus now []
      { st with chSystem := st.chSystem ++ [k.SysResume] }
    exact ⟨a1, a4⟩
  · intro hc
    have hst : sysHandle k cmdParam taskidParam now st =
        (some Response.success, { st with terminating := st.terminating + 1 }) := by
      simp [sysHandle, hid, hc]
    rw [hst]
    refine ⟨rfl, rfl, rfl, ?_⟩
    obtain ⟨st', h3, h4, -⟩ :=
      terminateTask_spec k now2 { st with terminating := st.terminating + 1 }
    exact ⟨st', h3, h4⟩
  · intro hs hr ht
    by_cases hrange : k.SysSuspend ≤ strconv.ParseInt cmdParam ∧
        strconv.ParseInt cmdParam < k.SysTerminate
    · simp [sysHandle, hid, hs, hr, ht, hrange]
    · simp [sysHandle, hid, hs, hr, ht, hrange]

/-- Witness for C1 as amended: Suspend sent with the right task identifier in the
terminal state that `setStatus` reaches for `TaskFinished`. -/
theorem sysHandle_applies_witness :
    eonzaConsts.WF ∧
    uint32 (strconv.ParseInt "5".toList) =
      (setStatus eonzaConsts eonzaConsts.TaskFinished none 7
        (initTask eonzaConsts 5 0)).2.task.ID ∧
    strconv.ParseInt "1".toList = eonzaConsts.SysSuspend ∧
    (sysHandle eonzaConsts "1".toList "5".toList 8
      (setStatus eonzaConsts eonzaConsts.TaskFinished none 7
        (initTask eonzaConsts 5 0)).2).2.task.Status = eonzaConsts.TaskSuspended :=
  ⟨by decide, by decide, by decide,
    ((sysHandle_applies eonzaConsts (by decide) "1".toList "5".toList 8 9
      (setStatus eonzaConsts eonzaConsts.TaskFinished none 7 (initTask eonzaConsts 5 0)).2
      (by decide)).1 (by decide)).1⟩

/-- Counterexample to C1: the task has reached the terminal status `TaskFinished`
through `setStatus`, whose notification the receiver of `wsChan` took before leaving
its loop. Suspend (command code 1) sent with the matching task identifier is not
rejected: the code is forwarded on `chSystem`, the status becomes `TaskSuspended`,
which is not terminal, and `prevStatus` becomes `TaskFinished`; the handler then stays
blocked in the send on `wsChan` and gives no answer. -/
theorem terminal_not_rejected :
    setStatus eonzaConsts eonzaConsts.TaskFinished none 7 (initTask eonzaConsts 5 0) =
      (true, (setStatus eonzaConsts eonzaConsts.TaskFinished none 7
        (initTask eonzaConsts 5 0)).2) ∧
    (setStatus eonzaConsts eonzaConsts.TaskFinished none 7
      (initTask eonzaConsts 5 0)).2.task.Status ≥ eonzaConsts.TaskFinished ∧
    strconv.ParseInt "1".toList = eonzaConsts.SysSuspend ∧
    uint32 (strconv.ParseInt "5".toList) =
      (setStatus eonzaConsts eonzaConsts.TaskFinished none 7
        (initTask eonzaConsts 5 0)).2.task.ID ∧
    (sysHandle eonzaConsts "1".toList "5".toList 8
      (setStatus eonzaConsts eonzaConsts.TaskFinished none 7
        (initTask eonzaConsts 5 0)).2).2.task.Status ≠
    (setStatus eonzaConsts eonzaConsts.TaskFinished none 7
      (initTask eonzaConsts 5 0)).2.task.Status ∧
    (sysHandle eonzaConsts "1".toList "5".toList 8
      (setStatus eonzaConsts eonzaConsts.TaskFinished none 7
        (initTask eonzaConsts 5 0)).2).2.task.Status = eonzaConsts.TaskSuspended ∧
    (sysHandle eonzaConsts "1".toList "5".toList 8
      (setStatus eonzaConsts eonzaConsts.TaskFinished none 7
        (initTask eonzaConsts 5 0)).2).2.prevStatus = eonzaConsts.TaskFinished ∧
    (sysHandle eonzaConsts "1".toList "5".toList 8
      (setStatus eonzaConsts eonzaConsts.TaskFinished none 7
        (initTask eonzaConsts 5 0)).2).2.chSystem = [eonzaConsts.SysSuspend] ∧
    (sysHandle eonzaConsts "1".toList "5".toList 8
      (setStatus eonzaConsts eonzaConsts.TaskFinished none 7
        (initTask eonzaConsts 5 0)).2).1 = none := by
  decide

/-- A request to `sysHandle` or `stdinHandle` whose `taskid` value, parsed as a 64-bit
integer and converted to `uint32`, differs from the task identifier gets the answer
`wrong task id` and leaves the whole state as it was. -/
theorem wrong_taskid_rejected (k : Consts) (cmdParam taskidParam : Str) (now : Int)
    (body : Except Str StdinForm) (st : State)
    (h : uint32 (strconv.ParseInt taskidParam) ≠ st.task.ID) :
    sysHandle k cmdParam taskidParam now st =
      (some (Response.error "wrong task id".toList), st) ∧
    stdinHandle taskidParam body st = (Response.error "wrong task id".toList, st) := by
  constructor
  · simp [sysHandle, h]
  · simp [stdinHandle, h]

/-- On the range of `uint32` the check of the task identifier is exact: a request
whose `taskid` is a decimal integer `v` with `0 ≤ v < 2 ^ 32` other than the task
identifier is answered with `wrong task id` by both handlers, the state staying as it
was: status, `prevStatus`, buffer, `iStdout`, registry, and no value sent on a
channel. -/
theorem taskid_in_range_rejected (k : Consts) (cmdParam taskidParam : Str) (now : Int)
    (body : Except Str StdinForm) (st : State) (v : Int)
    (hdec : strconv.decimal taskidParam = some v) (h0 : 0 ≤ v) (h32 : v < 2 ^ 32)
    (hne : v ≠ (st.task.ID : Int)) :
    sysHandle k cmdParam taskidParam now st =
      (some (Response.error "wrong task id".toList), st) ∧
    stdinHandle taskidParam body st = (Response.error "wrong task id".toList, st) := by
  apply wrong_taskid_rejected
  have hp : strconv.ParseInt taskidParam = v := by
    unfold strconv.ParseInt
    rw [hdec]
    have h1 : ¬ v ≥ 2 ^ 63 := by omega
    have h2 : ¬ v < -(2 ^ 63) := by omega
    simp only [h1, h2, if_false]
  rw [hp]
  intro heq
  apply hne
  unfold uint32 at heq
  have hmod : v % 2 ^ 32 = v := Int.emod_eq_of_lt h0 h32
  rw [hmod] at heq
  rw [← heq]
  exact (Int.toNat_of_nonneg h0).symm

/-- C2, the failing requests: the `taskid` value 4294967301 is a decimal integer
different from the task identifier 5, yet both handlers accept it, because its
conversion to `uint32` is 5: `sysHandle` with the command code 1 answers success,
forwards Suspend and suspends the task; `stdinHandle` answers success and sends the
message on `chStdin` and `chStdout`. -/
theorem taskid_wraps :
    strconv.decimal "4294967301".toList = some 4294967301 ∧
    (4294967301 : Int) ≠ ((initTask eonzaConsts 5 0).task.ID : Int) ∧
    uint32 (strconv.ParseInt "4294967301".toList) = (initTask eonzaConsts 5 0).task.ID ∧
    (sysHandle eonzaConsts "1".toList "4294967301".toList 7
      (initTask eonzaConsts 5 0)).1 = some Response.success ∧
    (sysHandle eonzaConsts "1".toList "4294967301".toList 7
      (initTask eonzaConsts 5 0)).2.task.Status = eonzaConsts.TaskSuspended ∧
    (sysHandle eonzaConsts "1".toList "4294967301".toList 7
      (initTask eonzaConsts 5 0)).2.chSystem = [eonzaConsts.SysSuspend] ∧
    (stdinHandle "4294967301".toList (Except.ok ⟨"x".toList⟩)
      (initTask eonzaConsts 5 0)).1 = Response.success ∧
    (stdinHandle "4294967301".toList (Except.ok ⟨"x".toList⟩)
      (initTask eonzaConsts 5 0)).2.chStdin = ["x\n".toList] ∧
    (stdinHandle "4294967301".toList (Except.ok ⟨"x".toList⟩)
      (initTask eonzaConsts 5 0)).2.chStdout = ["x\n".toList] := by
  decide

theorem delivered_addWire (st : State) (conn conn2 : Nat) (ms : List WsCmd) :
    delivered (addWire st conn ms) conn2 =
      delivered st conn2 ++ (if conn = conn2 then ms else []) := by
  unfold delivered addWire
  by_cases h : conn = conn2
  · subst h
    simp [List.filter_append, List.filter_map, Function.comp_def]
  · simp [List.filter_append, List.filter_map, Function.comp_def, h]

theorem addWire_nil (st : State) (conn : Nat) : addWire st conn [] = st := by
  simp [addWire]

theorem addWire_addWire (st : State) (conn : Nat) (ms ms2 : List WsCmd) :
    addWire (addWire st conn ms) conn ms2 = addWire st conn (ms ++ ms2) := by
  simp [addWire]

theorem WriteJSON_addWire (net : Nat → Nat → Bool) (conn : Nat) (m : WsCmd)
    (ms : List WsCmd) (st : State) :
    WriteJSON net conn m (addWire st conn ms) =
      if net conn ((delivered st conn).length + ms.length) then
        (true, addWire st conn (ms ++ [m]))
      else (false, addWire st conn ms) := by
  have hd : (delivered (addWire st conn ms) conn).length =
      (delivered st conn).length + ms.length := by
    simp [delivered_addWire]
  unfold WriteJSON
  rw [hd]
  by_cases hnet : net conn ((delivered st conn).length + ms.length) = true
  · simp [hnet, addWire]
  · simp [hnet]

theorem sendLoop_eq (net : Nat → Nat → Bool) (c : WsClient) (n i : Nat) (st : State) :
    sendLoop net c n i st =
      (loopMsgs net c.Conn st.task.ID st.stdoutBuf n i (delivered st c.Conn).length).map
        (fun r => (r.1, addWire st c.Conn r.2)) := by
  induction n generalizing i st with
  | zero => simp [sendLoop, loopMsgs, addWire_nil]
  | succ n ih =>
    unfold sendLoop loopMsgs
    cases hb : st.stdoutBuf[i]? with
    | none => simp
    | some line =>
      by_cases hnet : net c.Conn (delivered st c.Conn).length = true
      · have hw : WriteJSON net c.Conn
            { TaskID := st.task.ID, Cmd := WcStdout, Message := line } st =
            (true, addWire st c.Conn
              [{ TaskID := st.task.ID, Cmd := WcStdout, Message := line }]) := by
          simp [WriteJSON, hnet, addWire]
        simp only [hw, hnet, if_true]
        rw [ih]
        have hd : (delivered (addWire st c.Conn
            [{ TaskID := st.task.ID, Cmd := WcStdout, Message := line }]) c.Conn).length =
            (delivered st c.Conn).length + 1 := by
          simp [delivered_addWire]
        rw [hd]
        have ht : (addWire st c.Conn
            [{ TaskID := st.task.ID, Cmd := WcStdout, Message := line }]).task = st.task := rfl
        have hbuf : (addWire st c.Conn
            [{ TaskID := st.task.ID, Cmd := WcStdout, Message := line }]).stdoutBuf =
            st.stdoutBuf := rfl
        rw [ht, hbuf]
        cases loopMsgs net c.Conn st.task.ID st.stdoutBuf n (i + 1)
            ((delivered st c.Conn).length + 1) with
        | none => simp
        | some r =>
          obtain ⟨b, ms⟩ := r
          simp [addWire_addWire]
      · have hw : WriteJSON net c.Conn
            { TaskID := st.task.ID, Cmd := WcStdout, Message := line } st = (false, st) := by
          simp [WriteJSON, hnet]
        simp [hw, hnet, addWire_nil]

theorem sendStdout_eq (net : Nat → Nat → Bool) (c : WsClient) (st : State) :
    sendStdout net c st =
      (stdoutMsgs net c.Conn st.task.ID st.stdoutBuf st.iStdout c.StdoutCount
        (delivered st c.Conn).length).map
        (fun r => (r.1, addWire st c.Conn r.2)) := by
  unfold sendStdout stdoutMsgs
  rw [sendLoop_eq]
  cases loopMsgs net c.Conn st.task.ID st.stdoutBuf (st.iStdout - c.StdoutCount)
      c.StdoutCount (delivered st c.Conn).length with
  | none => simp
  | some r =>
    obtain ⟨b, ms⟩ := r
    cases b with
    | false => simp
    | true =>
      simp only [Option.map_some']
      have hbuf : (addWire st c.Conn ms).stdoutBuf = st.stdoutBuf := rfl
      have hi : (addWire st c.Conn ms).iStdout = st.iStdout := rfl
      have ht : (addWire st c.Conn ms).task = st.task := rfl
      rw [hbuf, hi, ht]
      cases hb : st.stdoutBuf[st.iStdout]? with
      | none => simp
      | some line =>
        have hd : (delivered (addWire st c.Conn ms) c.Conn).length =
            (delivered st c.Conn).length + ms.length := by
          simp [delivered_addWire]
        simp only [WriteJSON_addWire]
        by_cases hnet : net c.Conn ((delivered st c.Conn).length + ms.length) = true
        · simp [hnet]
        · simp [hnet]

theorem loopMsgs_isSome (net : Nat → Nat → Bool) (conn tid : Nat) (buf : List Str)
    (n i d : Nat) (h : i + n ≤ buf.length) :
    ∃ r, loopMsgs net conn tid buf n i d = some r := by
  induction n generalizing i d with
  | zero => exact ⟨_, rfl⟩
  | succ n ih =>
    have hlt : i < buf.length := by omega
    obtain ⟨r, hr⟩ := ih (i + 1) (d + 1) (by omega)
    unfold loopMsgs
    rw [List.getElem?_eq_getElem hlt]
    by_cases hnet : net conn d = true
    · simp [hnet, hr]
    · simp [hnet]

theorem stdoutMsgs_isSome (net : Nat → Nat → Bool) (conn tid : Nat) (buf : List Str)
    (iStd count d : Nat) (h : iStd < buf.length) :
    ∃ r, stdoutMsgs net conn tid buf iStd count d = some r := by
  obtain ⟨r, hr⟩ : ∃ r, loopMsgs net conn tid buf (iStd - count) count d = some r := by
    by_cases hc : count ≤ iStd
    · exact loopMsgs_isSome net conn tid buf (iStd - count) count d (by omega)
    · have hz : iStd - count = 0 := by omega
      rw [hz]
      exact ⟨_, rfl⟩
  unfold stdoutMsgs
  rw [hr, List.getElem?_eq_getElem h]
  obtain ⟨b, ms⟩ := r
  cases b with
  | false => exact ⟨_, rfl⟩
  | true =>
    by_cases hnet : net conn (d + ms.length) = true
    · simp [hnet]
    · simp [hnet]

theorem loopMsgs_ok (conn tid : Nat) (buf : List Str) (n i d : Nat)
    (h : i + n ≤ buf.length) :
    loopMsgs okNet conn tid buf n i d = some (true, lineMsgs tid ((buf.drop i).take n)) := by
  induction n generalizing i d with
  | zero => simp [loopMsgs, lineMsgs]
  | succ n ih =>
    have hlt : i < buf.length := by omega
    unfold loopMsgs
    rw [List.getElem?_eq_getElem hlt, ih (i + 1) (d + 1) (by omega)]
    have hd : buf.drop i = buf[i] :: buf.drop (i + 1) := List.drop_eq_getElem_cons hlt
    rw [hd]
    simp only [okNet, lineMsgs, List.take_succ_cons, List.map_cons, if_true]

theorem stdoutMsgs_ok (conn tid : Nat) (buf : List Str) (iStd count d : Nat)
    (h : iStd < buf.length) :
    stdoutMsgs okNet conn tid buf iStd count d =
      some (true, lineMsgs tid ((buf.take iStd).drop count) ++
        [{ TaskID := tid, Cmd := WcStdbuf, Message := lib.ClearCarriage buf[iStd] }]) := by
  have ht : (buf.drop count).take (iStd - count) = (buf.take iStd).drop count := by
    rw [List.drop_take]
  have hl : loopMsgs okNet conn tid buf (iStd - count) count d =
      some (true, lineMsgs tid ((buf.take iStd).drop count)) := by
    by_cases hc : count ≤ iStd
    · rw [loopMsgs_ok conn tid buf (iStd - count) count d (by omega), ht]
    · have hz : iStd - count = 0 := by omega
      rw [← ht, hz]
      simp [loopMsgs, lineMsgs]
  unfold stdoutMsgs
  rw [hl, List.getElem?_eq_getElem h]
  simp [okNet]

theorem stdoutPayloads_append (a b : List WsCmd) :
    stdoutPayloads (a ++ b) = stdoutPayloads a ++ stdoutPayloads b := by
  simp [stdoutPayloads]

theorem stdoutPayloads_lineMsgs (tid : Nat) (lines : List Str) :
    stdoutPayloads (lineMsgs tid lines) = lines := by
  induction lines with
  | nil => rfl
  | cons l ls ih =>
    simp only [stdoutPayloads, lineMsgs] at ih ⊢
    simp [ih]

theorem sendStdout_view (net : Nat → Nat → Bool) (c : WsClient) (st : State) :
    sendStdout net c st =
      (sendView net st c).map (fun r => (r.1, addWire st c.Conn r.2)) :=
  sendStdout_eq net c st

theorem sendView_congr (net : Nat → Nat → Bool) (st st2 : State) (c : WsClient)
    (h : core st2 = core st)
    (hd : (delivered st2 c.Conn).length = (delivered st c.Conn).length) :
    sendView net st2 c = sendView net st c := by
  have h1 : st2.task = st.task := by
    show (core st2).task = (core st).task
    rw [h]
  have h2 : st2.stdoutBuf = st.stdoutBuf := by
    show (core st2).stdoutBuf = (core st).stdoutBuf
    rw [h]
  have h3 : st2.iStdout = st.iStdout := by
    show (core st2).iStdout = (core st).iStdout
    rw [h]
  simp [sendView, h1, h2, h3, hd]

theorem sendOk_view (net : Nat → Nat → Bool) (st : State) (c : WsClient) :
    sendOk net st c = match sendView net st c with
      | some (true, _) => true
      | _ => false := by
  unfold sendOk
  rw [sendStdout_view]
  cases sendView net st c with
  | none => rfl
  | some r =>
    obtain ⟨b, ms⟩ := r
    cases b <;> rfl

theorem sendOk_congr (net : Nat → Nat → Bool) (st st2 : State) (c : WsClient)
    (h : core st2 = core st)
    (hd : (delivered st2 c.Conn).length = (delivered st c.Conn).length) :
    sendOk net st2 c = sendOk net st c := by
  rw [sendOk_view, sendOk_view, sendView_congr net st st2 c h hd]

theorem viewMsgs_congr (net : Nat → Nat → Bool) (st st2 : State) (c : WsClient)
    (h : core st2 = core st)
    (hd : (delivered st2 c.Conn).length = (delivered st c.Conn).length) :
    viewMsgs net st2 c = viewMsgs net st c := by
  unfold viewMsgs
  rw [sendView_congr net st st2 c h hd]

/-! ## The registry -/

theorem mapSet_mid (done rest : List (Nat × WsClient)) (id : Nat) (c c2 : WsClient)
    (h : id ∉ keys done) :
    mapSet (done ++ (id, c) :: rest) id c2 = done ++ (id, c2) :: rest := by
  induction done with
  | nil => simp [mapSet]
  | cons e done ih =>
    obtain ⟨k, w⟩ := e
    have hk : k ≠ id := fun e => h (by simp [keys, e])
    have hrest : id ∉ keys done := fun e => h (by simp [keys] at e ⊢; exact Or.inr e)
    simp [mapSet, hk, ih hrest]

theorem mapDelete_mid (done rest : List (Nat × WsClient)) (id : Nat) (c : WsClient)
    (h : id ∉ keys done) :
    mapDelete (done ++ (id, c) :: rest) id = done ++ rest := by
  induction done with
  | nil => simp [mapDelete]
  | cons e done ih =>
    obtain ⟨k, w⟩ := e
    have hk : k ≠ id := fun e => h (by simp [keys, e])
    have hrest : id ∉ keys done := fun e => h (by simp [keys] at e ⊢; exact Or.inr e)
    simp [mapDelete, hk, ih hrest]

/-! ## The broadcast after an append -/

theorem delivered_other (st : State) (conn conn2 : Nat) (ms : List WsCmd)
    (h : conn ≠ conn2) : delivered (addWire st conn ms) conn2 = delivered st conn2 := by
  rw [delivered_addWire]
  simp [h]

theorem delivered_same (st : State) (conn : Nat) (ms : List WsCmd) :
    delivered (addWire st conn ms) conn = delivered st conn ++ ms := by
  rw [delivered_addWire]
  simp

theorem viewMsgs_of_view (net : Nat → Nat → Bool) (st : State) (c : WsClient) (b : Bool)
    (ms : List WsCmd) (h : sendView net st c = some (b, ms)) : viewMsgs net st c = ms := by
  simp [viewMsgs, h]

theorem sendOk_of_view (net : Nat → Nat → Bool) (st : State) (c : WsClient) (b : Bool)
    (ms : List WsCmd) (h : sendView net st c = some (b, ms)) : sendOk net st c = b := by
  rw [sendOk_view, h]
  cases b <;> rfl

theorem keepState_delivered (st : State) (id : Nat) (c : WsClient) (ms : List WsCmd)
    (conn : Nat) :
    delivered (keepState st id c ms) conn = delivered (addWire st c.Conn ms) conn := rfl

theorem dropState_delivered (st : State) (id : Nat) (c : WsClient) (ms : List WsCmd)
    (conn : Nat) :
    delivered (dropState st id c ms) conn = delivered (addWire st c.Conn ms) conn := rfl

theorem keepState_iStdout (st : State) (id : Nat) (c : WsClient) (ms : List WsCmd) :
    (keepState st id c ms).iStdout = st.iStdout := rfl

theorem dropState_iStdout (st : State) (id : Nat) (c : WsClient) (ms : List WsCmd) :
    (dropState st id c ms).iStdout = st.iStdout := rfl

/-- The broadcast loop over the entries `entries` still to visit, `done` being the
entries already visited: it does not fail, it keeps the viewers whose send succeeds,
with the cursor advanced, and removes the others; the success of a send and the
messages delivered are those of the state in which the loop starts. -/
theorem broadcastLoop_spec (net : Nat → Nat → Bool) (entries : List (Nat × WsClient)) :
    ∀ (st : State) (done : List (Nat × WsClient)),
    st.clients = done ++ entries → (keys (done ++ entries)).Nodup →
    (conns entries).Nodup → st.iStdout < st.stdoutBuf.length →
    ∃ st', broadcastLoop net entries st = some st' ∧
      st'.clients = done ++
        (entries.filter (fun e => sendOk net st e.2)).map (advance st.iStdout) ∧
      core st' = core st ∧
      (∀ conn, conn ∉ conns entries → delivered st' conn = delivered st conn) ∧
      (∀ e ∈ entries, delivered st' e.2.Conn = delivered st e.2.Conn ++ viewMsgs net st e.2) := by
  induction entries with
  | nil =>
    intro st done hcl _ _ _
    exact ⟨st, rfl, by simpa using hcl, rfl, fun _ _ => rfl, by simp⟩
  | cons e rest ih =>
    intro st done hcl hk hc hb
    obtain ⟨id, c⟩ := e
    obtain ⟨r, hr⟩ := stdoutMsgs_isSome net c.Conn st.task.ID st.stdoutBuf st.iStdout
      c.StdoutCount (delivered st c.Conn).length hb
    obtain ⟨b, ms⟩ := r
    have hview : sendView net st c = some (b, ms) := hr
    have hsend : sendStdout net c st = some (b, addWire st c.Conn ms) := by
      rw [sendStdout_view, hview]; rfl
    have hid : id ∉ keys done := by
      intro hmem
      simp only [keys, List.map_append, List.map_cons] at hk
      rw [List.nodup_append] at hk
      exact hk.2.2 (by simpa [keys] using hmem) (List.mem_cons_self _ _)
    have hcr : c.Conn ∉ conns rest := by
      simp only [conns, List.map_cons] at hc
      exact (List.nodup_cons.1 hc).1
    have hcn : (conns rest).Nodup := by
      simp only [conns, List.map_cons] at hc
      exact (List.nodup_cons.1 hc).2
    have hne : ∀ e ∈ rest, c.Conn ≠ e.2.Conn := by
      intro e he heq
      exact hcr (by rw [heq]; exact List.mem_map_of_mem (fun e => e.2.Conn) he)
    cases b with
    | true =>
      have hset : (keepState st id c ms).clients =
          (done ++ [advance st.iStdout (id, c)]) ++ rest := by
        show mapSet st.clients id _ = _
        rw [hcl, mapSet_mid done rest id c _ hid]
        simp [advance, addWire]
      obtain ⟨st', h1, h2, h3, h4, h5⟩ := ih
        (keepState st id c ms)
        (done ++ [advance st.iStdout (id, c)]) hset
        (by simpa [keys, advance] using hk) hcn hb
      refine ⟨st', ?_, ?_, ?_, ?_, ?_⟩
      · simp only [broadcastLoop, hsend]
        exact h1
      · rw [h2]
        have hf : rest.filter (fun e => sendOk net
            (keepState st id c ms) e.2) =
            rest.filter (fun e => sendOk net st e.2) := by
          apply List.filter_congr
          intro e he
          exact sendOk_congr net st _ e.2 rfl
            (by rw [keepState_delivered, delivered_other st _ _ ms (hne e he)])
        have hok : sendOk net st c = true := sendOk_of_view net st c true ms hview
        rw [hf, keepState_iStdout]
        simp [List.filter_cons, hok]
      · rw [h3]; rfl
      · intro conn hconn
        have hn1 : c.Conn ≠ conn := fun e => hconn (by simp [conns, e])
        have hn2 : conn ∉ conns rest := fun e => hconn (by
          simp only [conns, List.map_cons, List.mem_cons]
          exact Or.inr e)
        rw [h4 conn hn2, keepState_delivered, delivered_other st _ _ ms hn1]
      · intro e he
        rcases List.mem_cons.1 he with h | h
        · subst h
          rw [h4 c.Conn hcr, keepState_delivered, delivered_same,
            viewMsgs_of_view net st c true ms hview]
        · rw [h5 e h, keepState_delivered, delivered_other st _ _ ms (hne e h)]
          rw [viewMsgs_congr net st (keepState st id c ms) e.2 rfl
            (by rw [keepState_delivered, delivered_other st _ _ ms (hne e h)])]
    | false =>
      have hdel : (dropState st id c ms).clients = done ++ rest := by
        show mapDelete st.clients id = _
        rw [hcl, mapDelete_mid done rest id c hid]
      have hk2 : (keys (done ++ rest)).Nodup := by
        simp only [keys, List.map_append, List.map_cons] at hk ⊢
        exact List.Nodup.sublist (List.Sublist.append_left (List.sublist_cons_self _ _) _) hk
      obtain ⟨st', h1, h2, h3, h4, h5⟩ := ih
        (dropState st id c ms)
        done hdel hk2 hcn hb
      have hdeliv := dropState_delivered st id c ms
      refine ⟨st', ?_, ?_, ?_, ?_, ?_⟩
      · simp only [broadcastLoop, hsend]
        exact h1
      · rw [h2]
        have hf : rest.filter (fun e => sendOk net
            (dropState st id c ms) e.2) =
            rest.filter (fun e => sendOk net st e.2) := by
          apply List.filter_congr
          intro e he
          exact sendOk_congr net st _ e.2 rfl
            (by rw [hdeliv, delivered_other st _ _ ms (hne e he)])
        have hok : sendOk net st c = false := sendOk_of_view net st c false ms hview
        rw [hf, dropState_iStdout]
        simp [List.filter_cons, hok]
      · rw [h3]; rfl
      · intro conn hconn
        have hn1 : c.Conn ≠ conn := fun e => hconn (by simp [conns, e])
        have hn2 : conn ∉ conns rest := fun e => hconn (by
          simp only [conns, List.map_cons, List.mem_cons]
          exact Or.inr e)
        rw [h4 conn hn2, hdeliv, delivered_other st _ _ ms hn1]
      · intro e he
        rcases List.mem_cons.1 he with h | h
        · subst h
          rw [h4 c.Conn hcr, hdeliv, delivered_same,
            viewMsgs_of_view net st c false ms hview]
        · rw [h5 e h, hdeliv, delivered_other st _ _ ms (hne e h)]
          rw [viewMsgs_congr net st (dropState st id c ms) e.2 rfl
            (by rw [hdeliv, delivered_other st _ _ ms (hne e h)])]

/-- The shape of the state after the buffer part of the ingestion loop: the finalized
lines stay, new finalized lines `fin` and an open line follow, `iStdout` is the index
of the open line, and registry, connections and task are untouched. -/
theorem appendStdout_shape (st : State) (F : List Str) (o out : Str)
    (h : st.stdoutBuf = F ++ [o]) :
    ∃ st1 fin op, appendStdout out st = some st1 ∧
      st1.stdoutBuf = F ++ fin ++ [op] ∧ st1.iStdout = (F ++ fin).length ∧
      st1.clients = st.clients ∧ st1.wire = st.wire ∧ st1.closed = st.closed ∧
      st1.task = st.task ∧ st1.prevStatus = st.prevStatus := by
  rcases Split_cases out '\n' with ⟨s0, hs⟩ | ⟨s0, mid, sk, hs⟩
  · exact ⟨_, [], o ++ s0, appendStdout_single st F o out s0 h hs, by simp, by simp,
      rfl, rfl, rfl, rfl, rfl⟩
  · exact ⟨_, lib.ClearCarriage (o ++ s0) :: mid.map lib.ClearCarriage, sk,
      appendStdout_multi st F o out s0 mid sk h hs, by simp, by simp; omega,
      rfl, rfl, rfl, rfl, rfl⟩

theorem snoc_of_ne_nil (l : List Str) (h : l ≠ []) : ∃ F o, l = F ++ [o] :=
  ⟨l.dropLast, l.getLast h, (List.dropLast_append_getLast h).symm⟩

/-- C9: for every registry (distinct keys, distinct connections), every chunk and every
behaviour `net` of the connections, one turn of the ingestion loop on a non-empty
buffer succeeds; after it the registry holds exactly the viewers registered before
whose `sendStdout` returned no error, in their order, each with `StdoutCount` equal to
`iStdout`, which is the number of finalized lines; the viewers whose send failed are
gone; and buffer, `iStdout`, task and every other part of the state except the
delivered messages and the closed connections are those of the turn in which no send
fails. -/
theorem broadcast_failures (net : Nat → Nat → Bool) (out : Str) (st : State)
    (hbuf : st.stdoutBuf ≠ []) (hk : (keys st.clients).Nodup)
    (hc : (conns st.clients).Nodup) :
    ∃ st1 st2 st3, appendStdout out st = some st1 ∧ st1.clients = st.clients ∧
      stdoutStep net out st = some st2 ∧ stdoutStep okNet out st = some st3 ∧
      st2.clients =
        (st.clients.filter (fun e => sendOk net st1 e.2)).map (advance st2.iStdout) ∧
      (∀ e ∈ st2.clients, e.2.StdoutCount = st2.iStdout) ∧
      st2.iStdout + 1 = st2.stdoutBuf.length ∧
      (∀ e ∈ st.clients, sendOk net st1 e.2 = false → e.1 ∉ keys st2.clients) ∧
      st2.stdoutBuf = st3.stdoutBuf ∧ st2.iStdout = st3.iStdout ∧ st2.task = st3.task ∧
      core st2 = core st3 := by
  obtain ⟨F, o, hFo⟩ := snoc_of_ne_nil st.stdoutBuf hbuf
  obtain ⟨st1, fin, op, happ, hb1, hi1, hcl1, -, -, -, -⟩ := appendStdout_shape st F o out hFo
  have hlt : st1.iStdout < st1.stdoutBuf.length := by
    rw [hb1, hi1]; simp
  have hk1 : (keys ([] ++ st1.clients)).Nodup := by simpa [hcl1] using hk
  have hc1 : (conns st1.clients).Nodup := by simpa [hcl1] using hc
  obtain ⟨st2, h21, h22, h23, -, -⟩ :=
    broadcastLoop_spec net st1.clients st1 [] (by simp) hk1 hc1 hlt
  obtain ⟨st3, h31, -, h33, -, -⟩ :=
    broadcastLoop_spec okNet st1.clients st1 [] (by simp) hk1 hc1 hlt
  have e2 : st2.iStdout = st1.iStdout := by
    show (core st2).iStdout = (core st1).iStdout
    rw [h23]
  have b2 : st2.stdoutBuf = st1.stdoutBuf := by
    show (core st2).stdoutBuf = (core st1).stdoutBuf
    rw [h23]
  have hcore : core st2 = core st3 := by rw [h23, h33]
  have hcl2 : st2.clients =
      (st.clients.filter (fun e => sendOk net st1 e.2)).map (advance st2.iStdout) := by
    rw [h22, hcl1, e2]; simp
  refine ⟨st1, st2, st3, happ, hcl1, ?_, ?_, hcl2, ?_, ?_, ?_, ?_, ?_, ?_, hcore⟩
  · simp only [stdoutStep, happ, broadcastStdout]; exact h21
  · simp only [stdoutStep, happ, broadcastStdout]; exact h31
  · intro e he
    rw [hcl2] at he
    obtain ⟨e0, -, rfl⟩ := List.mem_map.1 he
    rfl
  · rw [e2, b2, hb1, hi1]; simp; omega
  · intro e he hfail hmem
    rw [hcl2] at hmem
    simp only [keys, List.map_map, List.mem_map] at hmem
    obtain ⟨e0, he0, hkey⟩ := hmem
    have hmem0 := (List.mem_filter.1 he0).1
    have hok0 := (List.mem_filter.1 he0).2
    have hkey' : e0.1 = e.1 := hkey
    have heq : e0 = e := by
      have hinj := List.inj_on_of_nodup_map hk
      exact hinj hmem0 he hkey'
    rw [heq] at hok0
    simp [hfail] at hok0
  · show (core st2).stdoutBuf = (core st3).stdoutBuf
    rw [hcore]
  · show (core st2).iStdout = (core st3).iStdout
    rw [hcore]
  · show (core st2).task = (core st3).task
    rw [hcore]

/-! ## The registry as a map -/

theorem mem_mapSet (m : List (Nat × WsClient)) (id : Nat) (c : WsClient)
    (e : Nat × WsClient) (h : e ∈ mapSet m id c) : e = (id, c) ∨ e ∈ m := by
  induction m with
  | nil => simpa [mapSet] using h
  | cons x m ih =>
    obtain ⟨k, w⟩ := x
    by_cases hk : k = id
    · subst hk
      simp only [mapSet, if_true] at h
      rcases List.mem_cons.1 h with h1 | h1
      · exact Or.inl h1
      · exact Or.inr (List.mem_cons_of_mem _ h1)
    · simp only [mapSet, hk, if_false] at h
      rcases List.mem_cons.1 h with h1 | h1
      · exact Or.inr (h1 ▸ List.mem_cons_self _ _)
      · rcases ih h1 with h2 | h2
        · exact Or.inl h2
        · exact Or.inr (List.mem_cons_of_mem _ h2)

theorem mem_mapSet_self (m : List (Nat × WsClient)) (id : Nat) (c : WsClient) :
    (id, c) ∈ mapSet m id c := by
  induction m with
  | nil => simp [mapSet]
  | cons x m ih =>
    obtain ⟨k, w⟩ := x
    by_cases hk : k = id
    · subst hk; simp [mapSet]
    · simp only [mapSet, hk, if_false]
      exact List.mem_cons_of_mem _ ih

theorem mem_mapSet_of_ne (m : List (Nat × WsClient)) (id : Nat) (c : WsClient)
    (e : Nat × WsClient) (h : e ∈ m) (hne : e.1 ≠ id) : e ∈ mapSet m id c := by
  induction m with
  | nil => simp at h
  | cons x m ih =>
    obtain ⟨k, w⟩ := x
    by_cases hk : k = id
    · subst hk
      simp only [mapSet, if_true]
      rcases List.mem_cons.1 h with h1 | h1
      · subst h1; exact absurd rfl hne
      · exact List.mem_cons_of_mem _ h1
    · simp only [mapSet, hk, if_false]
      rcases List.mem_cons.1 h with h1 | h1
      · exact h1 ▸ List.mem_cons_self _ _
      · exact List.mem_cons_of_mem _ (ih h1)

theorem keys_mapSet (m : List (Nat × WsClient)) (id : Nat) (c : WsClient) :
    keys (mapSet m id c) = if id ∈ keys m then keys m else keys m ++ [id] := by
  induction m with
  | nil => simp [mapSet, keys]
  | cons x m ih =>
    obtain ⟨k, w⟩ := x
    by_cases hk : k = id
    · subst hk; simp [mapSet, keys]
    · have hk2 : id ≠ k := fun e => hk e.symm
      simp only [keys] at ih
      by_cases hm : id ∈ List.map Prod.fst m
      · simp [mapSet, keys, hk, hk2, hm, ih]
      · simp [mapSet, keys, hk, hk2, hm, ih]

theorem keys_mapSet_nodup (m : List (Nat × WsClient)) (id : Nat) (c : WsClient)
    (h : (keys m).Nodup) : (keys (mapSet m id c)).Nodup := by
  rw [keys_mapSet]
  by_cases hm : id ∈ keys m
  · simpa [hm] using h
  · simp only [hm, if_false]
    rw [List.nodup_append]
    refine ⟨h, List.nodup_singleton _, ?_⟩
    intro a ha hb
    simp at hb
    subst hb
    exact hm ha

theorem conns_mapSet_nodup (m : List (Nat × WsClient)) (id : Nat) (c : WsClient)
    (h : (conns m).Nodup) (hc : c.Conn ∉ conns m) : (conns (mapSet m id c)).Nodup := by
  induction m with
  | nil => simp [mapSet, conns]
  | cons x m ih =>
    obtain ⟨k, w⟩ := x
    simp only [conns, List.map_cons, List.nodup_cons, List.mem_cons, not_or] at h hc
    by_cases hk : k = id
    · subst hk
      simp only [mapSet, if_true, conns, List.map_cons, List.nodup_cons]
      exact ⟨hc.2, h.2⟩
    · simp only [mapSet, hk, if_false, conns, List.map_cons, List.nodup_cons]
      refine ⟨?_, ih h.2 hc.2⟩
      intro hmem
      obtain ⟨e, he, heq⟩ := List.mem_map.1 hmem
      rcases mem_mapSet m id c e he with h1 | h1
      · subst h1
        exact hc.1 heq
      · exact h.1 (List.mem_map.2 ⟨e, h1, heq⟩)

theorem keys_map_advance (i : Nat) (m : List (Nat × WsClient)) :
    keys (m.map (advance i)) = keys m := by
  simp [keys, advance, Function.comp_def]

theorem conns_map_advance (i : Nat) (m : List (Nat × WsClient)) :
    conns (m.map (advance i)) = conns m := by
  simp [conns, advance, Function.comp_def]

/-! ## Runs in which every send succeeds -/

theorem sendView_okNet (st : State) (c : WsClient) (h : st.iStdout < st.stdoutBuf.length) :
    sendView okNet st c =
      some (true, lineMsgs st.task.ID ((st.stdoutBuf.take st.iStdout).drop c.StdoutCount) ++
        [{ TaskID := st.task.ID, Cmd := WcStdbuf,
           Message := lib.ClearCarriage st.stdoutBuf[st.iStdout] }]) :=
  stdoutMsgs_ok c.Conn st.task.ID st.stdoutBuf st.iStdout c.StdoutCount _ h

theorem sendOk_okNet (st : State) (c : WsClient) (h : st.iStdout < st.stdoutBuf.length) :
    sendOk okNet st c = true :=
  sendOk_of_view okNet st c true _ (sendView_okNet st c h)

theorem payloads_viewMsgs_okNet (st : State) (c : WsClient)
    (h : st.iStdout < st.stdoutBuf.length) :
    stdoutPayloads (viewMsgs okNet st c) =
      (st.stdoutBuf.take st.iStdout).drop c.StdoutCount := by
  rw [viewMsgs_of_view okNet st c true _ (sendView_okNet st c h), stdoutPayloads_append,
    stdoutPayloads_lineMsgs]
  simp [stdoutPayloads, WcStdbuf, WcStdout]

theorem delivered_of_wire (st st1 : State) (h : st1.wire = st.wire) (conn : Nat) :
    delivered st1 conn = delivered st conn := by
  simp [delivered, h]

theorem RegInv_init (k : Consts) (id : Nat) (now : Int) : RegInv [] (initTask k id now) := by
  refine ⟨rfl, ?_, ?_, ?_, ?_, ?_⟩
  · simp [initTask, keys]
  · simp [initTask, conns]
  · intro conn _; rfl
  · intro e he; simp [initTask] at he
  · intro e he; simp [initTask] at he

theorem RegInv_congr (U U2 : List Nat) (st : State) (h : ∀ c, c ∈ U ↔ c ∈ U2)
    (hinv : RegInv U st) : RegInv U2 st := by
  obtain ⟨h1, h2, h3, h4, h5, h6⟩ := hinv
  exact ⟨h1, h2, h3, fun conn hc => h4 conn (fun hm => hc ((h conn).1 hm)),
    fun e he => (h _).1 (h5 e he), h6⟩

/-- One turn of the ingestion loop, every send succeeding, keeps the invariant and
keeps every viewer registered. -/
theorem RegInv_append (U : List Nat) (out : Str) (st : State) (hinv : RegInv U st) :
    ∃ st', stdoutStep okNet out st = some st' ∧ RegInv U st' ∧
      ∀ id conn, Present id conn st → Present id conn st' := by
  obtain ⟨h1, h2, h3, h4, h5, h6⟩ := hinv
  have hne : st.stdoutBuf ≠ [] := by
    intro h0
    rw [h0] at h1
    simp at h1
  obtain ⟨F, o, hFo⟩ := snoc_of_ne_nil st.stdoutBuf hne
  have hiF : st.iStdout = F.length := by
    rw [hFo] at h1
    simp at h1
    exact h1
  obtain ⟨st1, fin, op, happ, hb1, hi1, hcl1, hw1, -, -, -⟩ :=
    appendStdout_shape st F o out hFo
  have hlt : st1.iStdout < st1.stdoutBuf.length := by
    rw [hb1, hi1]; simp
  obtain ⟨st2, h21, h22, h23, h24, h25⟩ :=
    broadcastLoop_spec okNet st1.clients st1 [] (by simp)
      (by simpa [hcl1] using h2) (by simpa [hcl1] using h3) hlt
  have e2 : st2.iStdout = st1.iStdout := by
    show (core st2).iStdout = (core st1).iStdout
    rw [h23]
  have b2 : st2.stdoutBuf = st1.stdoutBuf := by
    show (core st2).stdoutBuf = (core st1).stdoutBuf
    rw [h23]
  have hcl2 : st2.clients = st.clients.map (advance st1.iStdout) := by
    rw [h22, hcl1]
    have hf : st.clients.filter (fun e => sendOk okNet st1 e.2) = st.clients := by
      apply List.filter_eq_self.2
      intro e _
      exact sendOk_okNet st1 e.2 hlt
    simp [hf]
  refine ⟨st2, ?_, ⟨?_, ?_, ?_, ?_, ?_, ?_⟩, ?_⟩
  · simp only [stdoutStep, happ, broadcastStdout]; exact h21
  · rw [e2, b2, hb1, hi1]; simp; omega
  · rw [hcl2, keys_map_advance]; exact h2
  · rw [hcl2, conns_map_advance]; exact h3
  · intro conn hconn
    have hnot : conn ∉ conns st1.clients := by
      intro hm
      rw [hcl1] at hm
      obtain ⟨e, he, heq⟩ := List.mem_map.1 hm
      exact hconn (heq ▸ h5 e he)
    rw [h24 conn hnot, delivered_of_wire st st1 hw1, h4 conn hconn]
  · intro e he
    rw [hcl2] at he
    obtain ⟨e0, he0, rfl⟩ := List.mem_map.1 he
    exact h5 e0 he0
  · intro e he
    rw [hcl2] at he
    obtain ⟨e0, he0, rfl⟩ := List.mem_map.1 he
    refine ⟨e2.symm, ?_⟩
    show stdoutPayloads (delivered st2 e0.2.Conn) = _
    rw [h25 e0 (hcl1 ▸ he0), stdoutPayloads_append, delivered_of_wire st st1 hw1,
      (h6 e0 he0).2, payloads_viewMsgs_okNet st1 e0.2 hlt, (h6 e0 he0).1, e2, b2, hb1, hi1,
      hFo, hiF]
    have ht : List.take (F.length + fin.length) (F ++ (fin ++ [op])) = F ++ fin := by
      rw [List.take_append, List.take_left']
      rfl
    simp [ht]
  · intro id conn hp
    obtain ⟨c, hc, hconn⟩ := hp
    refine ⟨(advance st1.iStdout (id, c)).2, ?_, hconn⟩
    rw [hcl2]
    exact List.mem_map.2 ⟨(id, c), hc, rfl⟩

theorem WriteJSON_okNet (conn : Nat) (m : WsCmd) (st : State) :
    WriteJSON okNet conn m st = (true, addWire st conn [m]) := by
  simp [WriteJSON, okNet, addWire]

/-- A viewer attaching on an unused connection, every send succeeding: the invariant
is kept, the viewer is registered under the drawn identifier, and the viewers
registered under other identifiers stay. -/
theorem RegInv_attach (U : List Nat) (conn rnd : Nat) (st : State) (hinv : RegInv U st)
    (hfresh : conn ∉ U) :
    ∃ st', wsTaskHandle okNet (some conn) rnd st = some st' ∧ RegInv (conn :: U) st' ∧
      Present rnd conn st' ∧
      ∀ id c, Present id c st → id ≠ rnd → Present id c st' := by
  obtain ⟨h1, h2, h3, h4, h5, h6⟩ := hinv
  have hlt : st.iStdout < st.stdoutBuf.length := by omega
  let m0 : WsCmd := { TaskID := st.task.ID, Cmd := WcStatus, Status := st.task.Status }
  let client : WsClient := { StdoutCount := 0, Conn := conn }
  have hlt1 : (addWire st conn [m0]).iStdout < (addWire st conn [m0]).stdoutBuf.length := hlt
  have hview := sendView_okNet (addWire st conn [m0]) client hlt1
  obtain ⟨ms, hms, hpay⟩ : ∃ ms, sendView okNet (addWire st conn [m0]) client =
      some (true, ms) ∧ stdoutPayloads ms = st.stdoutBuf.take st.iStdout := by
    refine ⟨_, hview, ?_⟩
    rw [stdoutPayloads_append, stdoutPayloads_lineMsgs]
    simp [stdoutPayloads, WcStdbuf, WcStdout, client]
    rfl
  have hsend : sendStdout okNet client (addWire st conn [m0]) =
      some (true, addWire (addWire st conn [m0]) conn ms) := by
    rw [sendStdout_view, hms]; rfl
  have hrun : wsTaskHandle okNet (some conn) rnd st =
      some { addWire (addWire st conn [m0]) conn ms with
             clients := mapSet st.clients rnd { StdoutCount := st.iStdout, Conn := conn } } := by
    simp only [wsTaskHandle, WriteJSON_okNet]
    rw [hsend]
    rfl
  have hdel : ∀ c, delivered { addWire (addWire st conn [m0]) conn ms with
      clients := mapSet st.clients rnd { StdoutCount := st.iStdout, Conn := conn } } c =
      delivered st c ++ (if conn = c then m0 :: ms else []) := by
    intro c
    show delivered (addWire (addWire st conn [m0]) conn ms) c = _
    rw [addWire_addWire, delivered_addWire]
    rfl
  have hnotin : conn ∉ conns st.clients := by
    intro hm
    obtain ⟨e, he, heq⟩ := List.mem_map.1 hm
    exact hfresh (heq ▸ h5 e he)
  refine ⟨_, hrun, ⟨h1, keys_mapSet_nodup _ _ _ h2, conns_mapSet_nodup _ _ _ h3 hnotin,
    ?_, ?_, ?_⟩, ⟨_, mem_mapSet_self _ _ _, rfl⟩, ?_⟩
  · intro c hc
    have hne : conn ≠ c := fun e => hc (e ▸ List.mem_cons_self _ _)
    rw [hdel c]
    simp only [hne, if_false, List.append_nil]
    exact h4 c (fun hm => hc (List.mem_cons_of_mem _ hm))
  · intro e he
    rcases mem_mapSet _ _ _ e he with h | h
    · subst h; exact List.mem_cons_self _ _
    · exact List.mem_cons_of_mem _ (h5 e h)
  · intro e he
    rcases mem_mapSet _ _ _ e he with h | h
    · subst h
      refine ⟨rfl, ?_⟩
      show stdoutPayloads (delivered _ conn) = st.stdoutBuf.take st.iStdout
      rw [hdel conn, h4 conn hfresh]
      simp only [if_true, List.nil_append]
      have : stdoutPayloads (m0 :: ms) = stdoutPayloads ms := by
        simp [stdoutPayloads, m0, WcStatus, WcStdout]
      rw [this, hpay]
    · have hne : conn ≠ e.2.Conn := fun heq => hfresh (heq ▸ h5 e h)
      refine ⟨(h6 e h).1, ?_⟩
      show stdoutPayloads (delivered _ e.2.Conn) = st.stdoutBuf.take st.iStdout
      rw [hdel e.2.Conn]
      simp only [hne, if_false, List.append_nil]
      exact (h6 e h).2
  · intro id c hp hne
    obtain ⟨w, hw, hconn⟩ := hp
    exact ⟨w, mem_mapSet_of_ne _ _ _ (id, w) hw hne, hconn⟩

theorem run_append (net : Nat → Nat → Bool) (a b : List Step) (st : State) :
    run net (a ++ b) st =
      match run net a st with
      | none => none
      | some st1 => run net b st1 := by
  induction a generalizing st with
  | nil => rfl
  | cons s a ih =>
    simp only [List.cons_append, run]
    cases step net s st with
    | none => rfl
    | some st1 => exact ih st1

theorem attachConns_append (a b : List Step) :
    attachConns (a ++ b) = attachConns a ++ attachConns b := by
  induction a with
  | nil => rfl
  | cons s a ih =>
    cases s with
    | append out => simpa [attachConns] using ih
    | attach conn rnd => simp [attachConns, ih]
    | close => simpa [attachConns] using ih

/-- A run of appends and attaches on unused, distinct connections, every send
succeeding: it does not fail, the invariant holds at its end, and a registered viewer
whose identifier is not drawn by an attach of the run is still registered. -/
theorem RegInv_run (steps : List Step) :
    ∀ (st : State) (U : List Nat), RegInv U st → (attachConns steps).Nodup →
    (∀ c ∈ attachConns steps, c ∉ U) → Step.close ∉ steps →
    ∃ st', run okNet steps st = some st' ∧ RegInv (attachConns steps ++ U) st' ∧
      ∀ id conn, Present id conn st → id ∉ attachIds steps → Present id conn st' := by
  induction steps with
  | nil =>
    intro st U hinv _ _ _
    exact ⟨st, rfl, by simpa [attachConns] using hinv, fun _ _ hp _ => hp⟩
  | cons s rest ih =>
    intro st U hinv hnd hdisj hclose
    have hclose2 : Step.close ∉ rest := fun h => hclose (List.mem_cons_of_mem _ h)
    cases s with
    | append out =>
      obtain ⟨st1, h1, hinv1, hp1⟩ := RegInv_append U out st hinv
      obtain ⟨st2, h2, hinv2, hp2⟩ := ih st1 U hinv1 (by simpa [attachConns] using hnd)
        (by simpa [attachConns] using hdisj) hclose2
      refine ⟨st2, by simp only [run, step, h1]; exact h2,
        by simpa [attachConns] using hinv2, ?_⟩
      intro id conn hp hid
      exact hp2 id conn (hp1 id conn hp) (by simpa [attachIds] using hid)
    | attach conn rnd =>
      simp only [attachConns, List.nodup_cons] at hnd
      have hfresh : conn ∉ U := hdisj conn (by simp [attachConns])
      obtain ⟨st1, h1, hinv1, -, hp1⟩ := RegInv_attach U conn rnd st hinv hfresh
      obtain ⟨st2, h2, hinv2, hp2⟩ := ih st1 (conn :: U) hinv1 hnd.2
        (by
          intro c hc hmem
          rcases List.mem_cons.1 hmem with h | h
          · subst h; exact hnd.1 hc
          · exact hdisj c (by simp [attachConns, hc]) h)
        hclose2
      refine ⟨st2, by simp only [run, step, h1]; exact h2, ?_, ?_⟩
      · apply RegInv_congr _ _ st2 _ hinv2
        intro c
        simp only [attachConns, List.mem_append, List.mem_cons]
        tauto
      · intro id c hp hid
        simp only [attachIds, List.mem_cons, not_or] at hid
        exact hp2 id c (hp1 id c hp hid.1) hid.2
    | close => exact absurd (List.mem_cons_self _ _) hclose

/-- C5, as the code has it: in the runs of appends and attaches (each attach on a new
connection) in which every send succeeds, starting from the start state, a viewer
attached at any point whose drawn identifier is not drawn again by a later attach is,
after every later step, registered with its cursor `StdoutCount` equal to `iStdout`,
and the `WcStdout` payloads delivered to it (catch-up and live) are exactly the
finalized lines `stdoutBuf[0 .. iStdout)`, in order; the same holds for every viewer
in the registry, and `iStdout` is the index of the open line. -/
theorem viewer_receives_all (k : Consts) (tid : Nat) (now : Int) (pre post : List Step)
    (conn id : Nat)
    (hclose : Step.close ∉ pre ++ Step.attach conn id :: post)
    (hconns : (attachConns (pre ++ Step.attach conn id :: post)).Nodup)
    (hid : id ∉ attachIds post) :
    ∃ st, run okNet (pre ++ Step.attach conn id :: post) (initTask k tid now) = some st ∧
      (id, { StdoutCount := st.iStdout, Conn := conn }) ∈ st.clients ∧
      stdoutPayloads (delivered st conn) = st.stdoutBuf.take st.iStdout ∧
      st.iStdout + 1 = st.stdoutBuf.length ∧
      ∀ e ∈ st.clients, e.2.StdoutCount = st.iStdout ∧
        stdoutPayloads (delivered st e.2.Conn) = st.stdoutBuf.take st.iStdout := by
  rw [attachConns_append, List.nodup_append] at hconns
  obtain ⟨hnd1, hnd2, hdj⟩ := hconns
  have hc1 : Step.close ∉ pre := fun h => hclose (List.mem_append_left _ h)
  have hc2 : Step.close ∉ post := fun h =>
    hclose (List.mem_append_right _ (List.mem_cons_of_mem _ h))
  obtain ⟨st1, h1, hinv1, -⟩ := RegInv_run pre (initTask k tid now) []
    (RegInv_init k tid now) hnd1 (by simp) hc1
  simp only [attachConns, List.nodup_cons] at hnd2
  have hfresh : conn ∉ attachConns pre ++ [] := by
    intro hmem
    exact hdj (by simpa using hmem) (by simp [attachConns])
  obtain ⟨st2, h2, hinv2, hp2, -⟩ := RegInv_attach _ conn id st1 hinv1 hfresh
  obtain ⟨st3, h3, hinv3, hp3⟩ := RegInv_run post st2 _ hinv2 hnd2.2
    (by
      intro c hc hmem
      rcases List.mem_cons.1 hmem with h | h
      · subst h; exact hnd2.1 hc
      · exact hdj (by simpa using h) (by simp [attachConns, hc]))
    hc2
  obtain ⟨w, hw, hwc⟩ := hp3 id conn hp2 hid
  obtain ⟨g1, -, -, -, -, g6⟩ := hinv3
  have hcount := (g6 (id, w) hw).1
  have hpay := (g6 (id, w) hw).2
  have hweq : w = { StdoutCount := st3.iStdout, Conn := conn } := by
    cases w
    simp only [WsClient.mk.injEq]
    exact ⟨hcount, hwc⟩
  refine ⟨st3, ?_, hweq ▸ hw, ?_, g1, g6⟩
  · rw [run_append, h1]
    simp only [run, step, h2]
    exact h3
  · rw [← hwc]; exact hpay

/-- Witness for C5 as amended: a viewer attaching between two chunks. -/
theorem viewer_receives_all_witness :
    Step.close ∉ [Step.append "a\nb".toList] ++
      Step.attach 1 7 :: [Step.append "c\n".toList] ∧
    (attachConns ([Step.append "a\nb".toList] ++
      Step.attach 1 7 :: [Step.append "c\n".toList])).Nodup ∧
    7 ∉ attachIds [Step.append "c\n".toList] ∧
    ∃ st, run okNet ([Step.append "a\nb".toList] ++
        Step.attach 1 7 :: [Step.append "c\n".toList]) (initTask eonzaConsts 5 0) = some st ∧
      (7, { StdoutCount := st.iStdout, Conn := 1 }) ∈ st.clients ∧
      stdoutPayloads (delivered st 1) = st.stdoutBuf.take st.iStdout ∧
      st.iStdout + 1 = st.stdoutBuf.length ∧
      ∀ e ∈ st.clients, e.2.StdoutCount = st.iStdout ∧
        stdoutPayloads (delivered st e.2.Conn) = st.stdoutBuf.take st.iStdout :=
  ⟨by decide, by decide, by decide,
    viewer_receives_all eonzaConsts 5 0 [Step.append "a\nb".toList]
      [Step.append "c\n".toList] 1 7 (by decide) (by decide) (by decide)⟩

/-- Counterexample to C5: two viewers attach on the connections 1 and 2 and draw the
same identifier 7, then the chunk "x\n" is appended, every send succeeding. The
second attach replaces the registry entry of the first viewer, whose connection is
left open: the first viewer receives none of the finalized lines, while the buffer
has the finalized line "x". -/
theorem viewer_lost_on_collision :
    (attachConns [Step.attach 1 7, Step.attach 2 7, Step.append "x\n".toList]).Nodup ∧
    ∃ st, run okNet [Step.attach 1 7, Step.attach 2 7, Step.append "x\n".toList]
        (initTask eonzaConsts 5 0) = some st ∧
      st.stdoutBuf.take st.iStdout = ["x".toList] ∧
      stdoutPayloads (delivered st 1) = [] ∧
      stdoutPayloads (delivered st 1) ≠ st.stdoutBuf.take st.iStdout ∧
      1 ∉ st.closed ∧
      st.clients = [(7, { StdoutCount := 1, Conn := 2 })] := by
  refine ⟨by decide, _, rfl, ?_⟩
  decide

/-- Witness for C9: two viewers, the chunk "x\n", the send to the viewer on
connection 11 failing; the viewer on connection 10 stays, with cursor 1. -/
theorem broadcast_failures_witness :
    twoViewers.stdoutBuf ≠ [] ∧ (keys twoViewers.clients).Nodup ∧
    (conns twoViewers.clients).Nodup ∧
    (stdoutStep lossyNet "x\n".toList twoViewers).map State.clients =
      some [(1, { StdoutCount := 1, Conn := 10 })] ∧
    ∃ st1 st2 st3, appendStdout "x\n".toList twoViewers = some st1 ∧
      st1.clients = twoViewers.clients ∧
      stdoutStep lossyNet "x\n".toList twoViewers = some st2 ∧
      stdoutStep okNet "x\n".toList twoViewers = some st3 ∧
      st2.clients =
        (twoViewers.clients.filter (fun e => sendOk lossyNet st1 e.2)).map
          (advance st2.iStdout) ∧
      (∀ e ∈ st2.clients, e.2.StdoutCount = st2.iStdout) ∧
      st2.iStdout + 1 = st2.stdoutBuf.length ∧
      (∀ e ∈ twoViewers.clients, sendOk lossyNet st1 e.2 = false →
        e.1 ∉ keys st2.clients) ∧
      st2.stdoutBuf = st3.stdoutBuf ∧ st2.iStdout = st3.iStdout ∧ st2.task = st3.task ∧
      core st2 = core st3 :=
  ⟨by decide, by decide, by decide, by decide,
    broadcast_failures lossyNet "x\n".toList twoViewers (by decide) (by decide) (by decide)⟩

/-- C10, the failing run: `closeTask` in the start state leaves `iStdout` equal to the
length of the buffer, so the invariant `iStdout < len(stdoutBuf)` is broken, and a
viewer attaching afterwards makes `sendStdout` read `stdoutBuf[iStdout]` out of
bounds: the run ends in a panic. -/
theorem closeTask_index_out_of_bounds :
    (∃ st, run okNet [Step.close] (initTask eonzaConsts 5 0) = some st ∧
      st.stdoutBuf = [[]] ∧ st.iStdout = 1 ∧ ¬ st.iStdout < st.stdoutBuf.length ∧
      st.stdoutBuf[st.iStdout]? = none ∧
      sendStdout okNet { StdoutCount := 0, Conn := 1 } st = none) ∧
    run okNet [Step.close, Step.attach 1 7] (initTask eonzaConsts 5 0) = none := by
  refine ⟨⟨_, rfl, ?_⟩, ?_⟩
  · decide
  · decide

/-- After `closeTask`, in any state whose `iStdout` is within the buffer, `iStdout`
is the length of the buffer, and `sendStdout` to a viewer with its cursor at zero,
every write succeeding, reads out of bounds. -/
theorem closeTask_then_send (st : State) (conn : Nat)
    (h : st.iStdout ≤ st.stdoutBuf.length) :
    ∃ st', closeTask st = some st' ∧ st'.iStdout = st'.stdoutBuf.length ∧
      sendStdout okNet { StdoutCount := 0, Conn := conn } st' = none := by
  obtain ⟨st', h1, -, h3, h4, -⟩ := closeTask_spec st
  have hi : st'.iStdout = st'.stdoutBuf.length := by rw [h4, h3]; omega
  refine ⟨st', h1, hi, ?_⟩
  rw [sendStdout_view]
  have hl : loopMsgs okNet conn st'.task.ID st'.stdoutBuf (st'.iStdout - 0) 0
      (delivered st' conn).length =
      some (true, lineMsgs st'.task.ID ((st'.stdoutBuf.drop 0).take (st'.iStdout - 0))) :=
    loopMsgs_ok conn st'.task.ID st'.stdoutBuf (st'.iStdout - 0) 0 _ (by omega)
  have hnone : st'.stdoutBuf[st'.iStdout]? = none := by
    rw [hi]; simp
  simp only [sendView, stdoutMsgs, hl, hnone]
  rfl

end Eonza
